import Mathlib

/-!
Verification development for the patent-grant parsing pipeline
(`notebooks/exports/01-data-parsing.py`).

Strings are modelled as `List Char`.  Python regular-expression matching over
the specific patterns of the source is modelled by a small backtracking
matcher (`mtchAtoms`/`mtchItems`/`searchA`/`findallE` below) whose
alternative order mirrors Python `re` semantics: the leftmost start position
wins; lazy quantifiers try shorter repetitions first, greedy ones longer
repetitions first; alternation tries its left branch first.  Every quantified
sub-expression in the source's patterns repeats a single-character class,
which the matcher supports exactly.

All recursive functions here are structurally recursive so that concrete
runs reduce inside the kernel.
-/

set_option maxRecDepth 20000

namespace PatParse

/-! ### Occurrence counting for literal patterns -/

/-- Number of positions of `text` at which the literal string `pat` occurs
(every position is inspected, so overlapping occurrences are all counted). -/
def occCount (pat : List Char) : List Char → Nat
  | [] => 0
  | c :: rest => (if pat <+: (c :: rest) then 1 else 0) + occCount pat rest

/-- Scanner for `countMatches`: `skip` counts characters still covered by the
previously found match. -/
def cmAux (pat : List Char) : List Char → Nat → Nat
  | [], _ => 0
  | _ :: rest, skip + 1 => cmAux pat rest skip
  | c :: rest, 0 =>
    if pat <+: (c :: rest) then 1 + cmAux pat rest (pat.length - 1)
    else cmAux pat rest 0

/-- `countMatches pat text` is the number of matches Python's `re.findall`
yields for the literal pattern `pat` on `text`: scan left to right, take each
leftmost match, and continue immediately after its end (non-overlapping). -/
def countMatches (pat : List Char) (text : List Char) : Nat :=
  cmAux pat text 0

theorem cmAux_skip (pat : List Char) :
    ∀ (t : List Char) (skip : Nat), cmAux pat t skip = cmAux pat (t.drop skip) 0 := by
  intro t
  induction t with
  | nil => intro skip; simp [cmAux]
  | cons c rest ih =>
    intro skip
    match skip with
    | 0 => rfl
    | skip + 1 => simpa [cmAux] using ih skip

theorem countMatches_nil (pat : List Char) : countMatches pat [] = 0 := rfl

theorem countMatches_cons (pat : List Char) (c : Char) (rest : List Char) :
    countMatches pat (c :: rest)
      = if pat <+: (c :: rest) then 1 + countMatches pat (rest.drop (pat.length - 1))
        else countMatches pat rest := by
  by_cases hp : pat <+: (c :: rest)
  · simp only [countMatches, cmAux, hp, if_true]
    rw [cmAux_skip]
  · simp only [countMatches, cmAux, hp, if_false]

/-- No nonempty proper shift of `pat` is a prefix of `pat`; a literal with
this property cannot overlap itself, so non-overlapping matching finds every
occurrence. -/
def noSelfAlign (pat : List Char) : Prop :=
  ∀ t < pat.length, 0 < t → ¬ (pat.drop t <+: pat)

instance (pat : List Char) : Decidable (noSelfAlign pat) := by
  unfold noSelfAlign; infer_instance

/-- `pat` occurs nowhere in `text`. -/
def noOccur (pat text : List Char) : Prop :=
  ∀ j : Nat, ¬ (pat <+: text.drop j)

theorem occCount_drop_of_no_match (pat : List Char) :
    ∀ (m : Nat) (t : List Char), (∀ j < m, ¬ (pat <+: t.drop j)) →
      occCount pat t = occCount pat (t.drop m) := by
  intro m
  induction m with
  | zero => intro t _; simp
  | succ m ih =>
    intro t h
    match t with
    | [] => simp
    | c :: rest =>
      have h0 : ¬ (pat <+: (c :: rest)) := by
        have := h 0 (Nat.succ_pos m); simpa using this
      have step : occCount pat (c :: rest) = occCount pat rest := by
        simp [occCount, h0]
      rw [step]
      have := ih rest (fun j hj => by
        have := h (j + 1) (Nat.succ_lt_succ hj)
        simpa using this)
      simpa using this

theorem no_match_shift_of_noSelfAlign {pat text : List Char}
    (hpre : pat <+: text) (hA : noSelfAlign pat) :
    ∀ j, 0 < j → j < pat.length → ¬ (pat <+: text.drop j) := by
  intro j hj1 hj2 hcon
  obtain ⟨u, rfl⟩ := hpre
  have hdrop : (pat ++ u).drop j = pat.drop j ++ u :=
    List.drop_append_of_le_length (Nat.le_of_lt hj2)
  rw [hdrop] at hcon
  have hp2 : pat.drop j <+: pat.drop j ++ u := List.prefix_append _ _
  have hlen : (pat.drop j).length ≤ pat.length := by
    rw [List.length_drop]; omega
  exact hA j hj2 hj1 (List.prefix_of_prefix_length_le hp2 hcon hlen)

/-- For a literal that cannot overlap itself, the non-overlapping scan of
`re.findall` counts exactly the occurrences at every position. -/
theorem countMatches_eq_occCount {pat : List Char}
    (hA : noSelfAlign pat) :
    ∀ text, countMatches pat text = occCount pat text := by
  have key : ∀ (n : Nat) (text : List Char), text.length ≤ n →
      countMatches pat text = occCount pat text := by
    intro n
    induction n with
    | zero =>
      intro text hlen
      have : text = [] := List.length_eq_zero.mp (Nat.le_zero.mp hlen)
      subst this; simp [countMatches_nil, occCount]
    | succ n ih =>
      intro text hlen
      match text with
      | [] => simp [countMatches_nil, occCount]
      | c :: rest =>
        have hrest : rest.length ≤ n := by
          simp only [List.length_cons] at hlen; omega
        by_cases hp : pat <+: (c :: rest)
        · have hdl : (rest.drop (pat.length - 1)).length ≤ n := by
            simp only [List.length_drop]; omega
          have e2 : occCount pat (c :: rest) = 1 + occCount pat rest := by
            simp [occCount, hp]
          rw [countMatches_cons]
          simp only [hp, if_true]
          rw [e2, ih _ hdl]
          have hshift : ∀ j < pat.length - 1, ¬ (pat <+: rest.drop j) := by
            intro j hj
            have := no_match_shift_of_noSelfAlign hp hA (j + 1)
              (Nat.succ_pos j) (by omega)
            simpa using this
          rw [occCount_drop_of_no_match pat (pat.length - 1) rest hshift]
        · have e2 : occCount pat (c :: rest) = occCount pat rest := by
            simp [occCount, hp]
          rw [countMatches_cons]
          simp only [hp, if_false]
          rw [e2, ih _ hrest]
  exact fun text => key text.length text (Nat.le_refl _)

/-- On a text without any occurrence, the scan finds zero matches. -/
theorem countMatches_eq_zero_of_noOccur {pat text : List Char}
    (h : noOccur pat text) : countMatches pat text = 0 := by
  induction text with
  | nil => simp [countMatches_nil]
  | cons c rest ih =>
    have h0 : ¬ (pat <+: (c :: rest)) := by have := h 0; simpa using this
    rw [countMatches_cons]
    simp only [h0, if_false]
    exact ih (fun j => by have := h (j + 1); simpa using this)

/-! ### Python string primitives used by `clean_xml_docs` -/

/-- Scanner for `replaceAll`; `skip` counts characters of the input still
covered by the occurrence just replaced. -/
def raAux (pat repl : List Char) : List Char → Nat → List Char
  | [], _ => []
  | _ :: rest, skip + 1 => raAux pat repl rest skip
  | c :: rest, 0 =>
    if pat <+: (c :: rest) then repl ++ raAux pat repl rest (pat.length - 1)
    else c :: raAux pat repl rest 0

/-- Python `s.replace(pat, repl)` for nonempty `pat`: replace every
non-overlapping occurrence, scanning left to right. -/
def replaceAll (pat repl : List Char) (s : List Char) : List Char :=
  raAux pat repl s 0

/-- Scanner for `pySplit`: the part scanned so far is accumulated (reversed)
in `acc`; `skip` counts characters of the separator still to be consumed. -/
def saAux (sep : List Char) : List Char → Nat → List Char → List (List Char)
  | [], _, acc => [acc.reverse]
  | _ :: rest, skip + 1, acc => saAux sep rest skip acc
  | c :: rest, 0, acc =>
    if sep <+: (c :: rest) then acc.reverse :: saAux sep rest (sep.length - 1) []
    else saAux sep rest 0 (c :: acc)

/-- Python `s.split(sep)` for nonempty `sep`: the parts between the
non-overlapping occurrences of `sep`, scanned left to right. -/
def pySplit (sep s : List Char) : List (List Char) := saAux sep s 0 []

theorem saAux_skip (sep : List Char) :
    ∀ (t : List Char) (skip : Nat) (acc : List Char),
      saAux sep t skip acc = saAux sep (t.drop skip) 0 acc := by
  intro t
  induction t with
  | nil => intro skip acc; simp [saAux]
  | cons c rest ih =>
    intro skip acc
    match skip with
    | 0 => rfl
    | skip + 1 => simpa [saAux] using ih skip acc

theorem saAux_nil (sep acc : List Char) : saAux sep [] 0 acc = [acc.reverse] := rfl

theorem saAux_cons (sep : List Char) (c : Char) (rest acc : List Char) :
    saAux sep (c :: rest) 0 acc
      = if sep <+: (c :: rest) then
          acc.reverse :: saAux sep (rest.drop (sep.length - 1)) 0 []
        else saAux sep rest 0 (c :: acc) := by
  by_cases hp : sep <+: (c :: rest)
  · simp only [saAux, hp, if_true]
    rw [saAux_skip]
  · simp only [saAux, hp, if_false]

/-- The literal XML declaration on which the raw file is split. -/
def xmlDecl : List Char := "<?xml version=\"1.0\" encoding=\"UTF-8\"?>".data

/-- The fixed entity-substitution table of `clean_xml_docs`, in source order.
The replacement characters for the numeric entities are the corresponding
Unicode characters (left curly quote, right curly quote, c-cedilla, en dash,
em dash, left curly double quote, right curly double quote). -/
def htmlEntities : List (List Char × List Char) :=
  [ ("&amp;".data, "&".data), ("&lt;".data, "<".data),
    ("&gt;".data, ">".data), ("&quot;".data, "\"".data),
    ("&#39;".data, "\x27".data), ("&#x2018;".data, "‘".data),
    ("&#x2019;".data, "’".data), ("&#xe7;".data, "ç".data),
    ("&#x2013;".data, "–".data), ("&#x2014;".data, "—".data),
    ("&#x201c;".data, "“".data), ("&#x201d;".data, "”".data) ]

/-- One full `str.replace` pass per table entry, applied in table order. -/
def applyEntitiesList (tbl : List (List Char × List Char)) (doc : List Char) :
    List Char :=
  tbl.foldl (fun d ec => replaceAll ec.1 ec.2 d) doc

/-- The substitution actually performed by `clean_xml_docs` on each segment. -/
def applyEntities (doc : List Char) : List Char :=
  applyEntitiesList htmlEntities doc

/-- Python `str.strip()`-whitespace (ASCII part of the set Python strips). -/
def pySpace (c : Char) : Bool :=
  c == ' ' || c == '\t' || c == '\n' || c == '\r' || c == '\x0b' || c == '\x0c'

/-- `len(x.strip()) > 0`: the string has at least one non-whitespace char. -/
def hasNonSpace (s : List Char) : Bool := s.any (fun c => ! pySpace c)

/-- The Document Segmenter (`clean_xml_docs`): split the raw text on the XML
declaration, discard the part before the first declaration, remove newlines,
substitute the entity table, and drop segments that are empty after
stripping. -/
def clean_xml_docs (raw : List Char) : List (List Char) :=
  let xml_docs := (pySplit xmlDecl raw).drop 1
  let xml_docs := xml_docs.map (fun doc => replaceAll "\n".data [] doc)
  let xml_docs := xml_docs.map applyEntities
  xml_docs.filter hasNonSpace

theorem saAux_length (sep : List Char) :
    ∀ (s acc : List Char), (saAux sep s 0 acc).length = countMatches sep s + 1 := by
  have key : ∀ (n : Nat) (s acc : List Char), s.length ≤ n →
      (saAux sep s 0 acc).length = countMatches sep s + 1 := by
    intro n
    induction n with
    | zero =>
      intro s acc hlen
      have : s = [] := List.length_eq_zero.mp (Nat.le_zero.mp hlen)
      subst this; simp [saAux_nil, countMatches_nil]
    | succ n ih =>
      intro s acc hlen
      match s with
      | [] => simp [saAux_nil, countMatches_nil]
      | c :: rest =>
        have hrest : rest.length ≤ n := by
          simp only [List.length_cons] at hlen; omega
        rw [saAux_cons, countMatches_cons]
        by_cases hp : sep <+: (c :: rest)
        · have hdl : (rest.drop (sep.length - 1)).length ≤ n := by
            simp only [List.length_drop]; omega
          simp only [hp, if_true, List.length_cons]
          rw [ih _ [] hdl]; omega
        · simp only [hp, if_false]
          exact ih _ _ hrest
  exact fun s acc => key s.length s acc (Nat.le_refl _)

theorem pySplit_length (sep s : List Char) :
    (pySplit sep s).length = countMatches sep s + 1 :=
  saAux_length sep s []

/-- Scanning an occurrence-free piece `p` only accumulates it. -/
theorem saAux_append_of_no_match (sep : List Char) :
    ∀ (p s acc : List Char), (∀ j < p.length, ¬ (sep <+: (p ++ s).drop j)) →
      saAux sep (p ++ s) 0 acc = saAux sep s 0 (p.reverse ++ acc) := by
  intro p
  induction p with
  | nil => intro s acc _; simp
  | cons c p ih =>
    intro s acc h
    have h0 : ¬ (sep <+: (c :: (p ++ s))) := by
      have := h 0 (by simp); simpa using this
    rw [List.cons_append, saAux_cons]
    simp only [h0, if_false]
    rw [ih _ (c :: acc) (fun j hj => by
      have := h (j + 1) (by simp only [List.length_cons]; omega)
      simpa using this)]
    simp

/-- Splitting a string that starts with the separator. -/
theorem saAux_sep_append (sep body acc : List Char) (hne : sep ≠ []) :
    saAux sep (sep ++ body) 0 acc = acc.reverse :: saAux sep body 0 [] := by
  match sep with
  | [] => exact absurd rfl hne
  | d :: ds =>
    have hp : (d :: ds) <+: ((d :: ds) ++ body) := List.prefix_append _ _
    rw [List.cons_append, saAux_cons]
    simp only [← List.cons_append, hp, if_true]
    have hdrop : (ds ++ body).drop ((d :: ds).length - 1) = body := by
      simp only [List.length_cons, Nat.add_sub_cancel]
      rw [List.drop_append_of_le_length (Nat.le_refl _)]
      simp
    rw [hdrop]

/-- The text before the first declaration marker is discarded: prepending an
occurrence-free preamble to a raw stream that starts with the marker does not
change the segmented documents. -/
theorem clean_xml_docs_discard_preamble (p body : List Char)
    (h : ∀ j < p.length, ¬ (xmlDecl <+: (p ++ (xmlDecl ++ body)).drop j)) :
    clean_xml_docs (p ++ (xmlDecl ++ body)) = clean_xml_docs (xmlDecl ++ body) := by
  have hne : xmlDecl ≠ [] := by decide
  have e1 : pySplit xmlDecl (p ++ (xmlDecl ++ body))
      = p :: saAux xmlDecl body 0 [] := by
    unfold pySplit
    rw [saAux_append_of_no_match xmlDecl p (xmlDecl ++ body) [] h,
      saAux_sep_append xmlDecl body _ hne]
    simp
  have e2 : pySplit xmlDecl (xmlDecl ++ body)
      = [] :: saAux xmlDecl body 0 [] := by
    unfold pySplit
    rw [saAux_sep_append xmlDecl body [] hne]
    simp
  unfold clean_xml_docs
  rw [e1, e2]
  simp

/-! ### A small backtracking matcher for the source's regular expressions -/

/-- One atom of a pattern: a literal, or a repeated character class with
minimum `lo`, optional maximum `hi`, greedy or lazy. -/
inductive Atom where
  | lit (s : List Char)
  | cls (p : Char → Bool) (lo : Nat) (hi : Option Nat) (greedy : Bool)

/-- One item of a pattern: a run of plain atoms, a capturing group, or an
ordered alternation of two atom runs. -/
inductive RItem where
  | seq (atoms : List Atom)
  | grp (idx : Nat) (sub : List Atom)
  | alt (a b : List Atom)

/-- Captures: group index paired with captured text; the most recent entry
for an index is its value. -/
abbrev Caps := List (Nat × List Char)

/-- Value of group `i` (empty when the group never captured). -/
def capGet (caps : Caps) (i : Nat) : List Char :=
  match caps.find? (fun x => x.fst == i) with
  | some x => x.snd
  | none => []

/-- Length of the maximal prefix whose characters satisfy `p`. -/
def clsRun (p : Char → Bool) : List Char → Nat
  | [] => 0
  | c :: t => if p c then clsRun p t + 1 else 0

/-- Try `f lo`, `f (lo+1)`, …, `n` candidates in all; first `some` wins. -/
def tryAsc {α : Type} (f : Nat → Option α) (lo : Nat) : Nat → Option α
  | 0 => none
  | n + 1 =>
    match f lo with
    | some v => some v
    | none => tryAsc f (lo + 1) n

/-- Try `f hi`, `f (hi-1)`, …, `n` candidates in all; first `some` wins. -/
def tryDesc {α : Type} (f : Nat → Option α) (hi : Nat) : Nat → Option α
  | 0 => none
  | n + 1 =>
    match f hi with
    | some v => some v
    | none => tryDesc f (hi - 1) n

/-- Match a run of atoms at the start of `s`, in continuation-passing style:
`k` receives the rest of the input and the captures on success, and
backtracking explores the repetition counts in Python's order. -/
def mtchAtoms {α : Type} : List Atom → List Char → Caps →
    (List Char → Caps → Option α) → Option α
  | [], s, caps, k => k s caps
  | .lit l :: rest, s, caps, k =>
    if l <+: s then mtchAtoms rest (s.drop l.length) caps k else none
  | .cls p lo hi g :: rest, s, caps, k =>
    let m := match hi with
      | some h => min h (clsRun p s)
      | none => clsRun p s
    if m < lo then none
    else if g then tryDesc (fun c => mtchAtoms rest (s.drop c) caps k) m (m - lo + 1)
    else tryAsc (fun c => mtchAtoms rest (s.drop c) caps k) lo (m - lo + 1)

/-- Match the items of a pattern at the start of `s`; a group records the
text its atoms consumed. -/
def mtchItems {α : Type} : List RItem → List Char → Caps →
    (List Char → Caps → Option α) → Option α
  | [], s, caps, k => k s caps
  | .seq atoms :: rest, s, caps, k =>
    mtchAtoms atoms s caps (fun s2 caps2 => mtchItems rest s2 caps2 k)
  | .grp i sub :: rest, s, caps, k =>
    mtchAtoms sub s caps (fun s2 caps2 =>
      mtchItems rest s2 ((i, s.take (s.length - s2.length)) :: caps2) k)
  | .alt a b :: rest, s, caps, k =>
    match mtchAtoms a s caps (fun s2 caps2 => mtchItems rest s2 caps2 k) with
    | some v => some v
    | none => mtchAtoms b s caps (fun s2 caps2 => mtchItems rest s2 caps2 k)

/-- The success continuation of `searchA` at a start suffix `s0`: package the
matched text (what the match consumed of `s0`), the rest, and the captures. -/
def kposFor (s0 : List Char) : List Char → Caps → Option (List Char × List Char × Caps) :=
  fun s2 caps => some (s0.take (s0.length - s2.length), s2, caps)

/-- Python `pattern.search(s)`: try a full match at each successive start
position; at the leftmost success return the matched text, the rest of the
input after the match, and the captures. -/
def searchA (r : List RItem) : List Char → Option (List Char × List Char × Caps)
  | [] =>
    match mtchItems r [] [] (kposFor []) with
    | some v => some v
    | none => none
  | c :: t =>
    match mtchItems r (c :: t) [] (kposFor (c :: t)) with
    | some v => some v
    | none => searchA r t

def findallAux (r : List RItem) : Nat → List Char → List (List Char × Caps)
  | 0, _ => []
  | fuel + 1, s =>
    match searchA r s with
    | none => []
    | some (m, rest, caps) =>
      (m, caps) :: (if rest.length < s.length then findallAux r fuel rest else [])

/-- Python `pattern.findall(s)` for the source's patterns (none of which can
match the empty string): collect the successive non-overlapping leftmost
matches.  Fuel `s.length + 1` covers every possible chain of nonempty
matches. -/
def findallE (r : List RItem) (s : List Char) : List (List Char × Caps) :=
  findallAux r (s.length + 1) s

/-- Scanner for `subRemove`; `skip` counts characters still covered by the
match just deleted. -/
def srAux (r : List RItem) : List Char → Nat → List Char
  | [], _ => []
  | _ :: t, skip + 1 => srAux r t skip
  | c :: t, 0 =>
    match mtchItems r (c :: t) [] (fun s2 _ => some s2.length) with
    | some rlen => srAux r t ((c :: t).length - rlen - 1)
    | none => c :: srAux r t 0

/-- Python `re.sub(r, '', s)` for a pattern that cannot match the empty
string: delete every non-overlapping leftmost match. -/
def subRemove (r : List RItem) (s : List Char) : List Char :=
  srAux r s 0

/-! ### The source's compiled patterns, translated item by item.

Python `str` patterns treat the classes backslash-d, backslash-w and
backslash-s as Unicode-aware; they are modelled here by their ASCII parts,
which is what the patent documents contain at the matched positions. -/

def anyP : Char → Bool := fun _ => true

def upperP : Char → Bool := fun c => 'A' ≤ c && c ≤ 'Z'

def wordP : Char → Bool := fun c => c.isAlphanum || c == '_'

/-- Source regex: us-patent-grant open tag, lazy gap, the file attribute with
a captured country-code-prefixed alphanumeric id, lazy gap, the XML file
suffix, lazy gap, closing angle bracket (re.DOTALL). -/
def GRANT_ID_PATTERN : List RItem :=
  [ .seq [ .lit "<us-patent-grant".data,
           .cls anyP 0 none false,
           .lit "file=\"".data ],
    .grp 1 [ .cls upperP 2 (some 2) true,
             .cls upperP 0 (some 2) true,
             .cls Char.isDigit 1 none true ],
    .seq [ .cls anyP 0 none false,
           .lit ".XML\"".data,
           .cls anyP 0 none false,
           .lit ">".data ] ]

/-- Source regex: kind code (one or two word characters) inside the
publication-reference region. -/
def KIND_PATTERN : List RItem :=
  [ .seq [ .lit "<publication-reference>".data,
           .cls anyP 0 none false,
           .lit "<kind>".data ],
    .grp 1 [ .cls wordP 1 (some 2) true ],
    .seq [ .lit "</kind>".data,
           .cls anyP 0 none false,
           .lit "</publication-reference>".data ] ]

/-- Source regex: the invention-title element, whose opening tag must carry
an id attribute; the title text is captured lazily. -/
def PATENT_TITLE_PATTERN : List RItem :=
  [ .seq [ .lit "<invention-title id=\"".data,
           .cls anyP 0 none false,
           .lit "\">".data ],
    .grp 1 [ .cls anyP 0 none false ],
    .seq [ .lit "</invention-title>".data ] ]

/-- Source regex: the digits inside the number-of-claims element. -/
def NUMBER_OF_CLAIMS_PATTERN : List RItem :=
  [ .seq [ .lit "<number-of-claims>".data ],
    .grp 1 [ .cls Char.isDigit 1 none true ],
    .seq [ .lit "</number-of-claims>".data ] ]

/-- Source regex (a literal): the examiner citation label. -/
def citExaminerLit : List Char := "<category>cited by examiner</category>".data

/-- Source regex (a literal): the applicant citation label. -/
def citApplicantLit : List Char := "<category>cited by applicant</category>".data

/-- Source regex: the whole inventors region, matched lazily. -/
def INVENTORS_TAG_PATTERN : List RItem :=
  [ .seq [ .lit "<inventors>".data,
           .cls anyP 0 none false,
           .lit "</inventors>".data ] ]

/-- Source regex: one inventor block giving a last-name/first-name pair. -/
def INVENTORS_PATTERN : List RItem :=
  [ .seq [ .lit "<inventor".data,
           .cls (fun c => c != '>') 0 none true,
           .lit ">".data,
           .cls (fun c => pySpace c) 0 none true,
           .lit "<addressbook>".data,
           .cls (fun c => pySpace c) 0 none true,
           .lit "<last-name>".data ],
    .grp 1 [ .cls (fun c => c != '<') 0 none true ],
    .seq [ .lit "</last-name>".data,
           .cls (fun c => pySpace c) 0 none true,
           .lit "<first-name>".data ],
    .grp 2 [ .cls (fun c => c != '<') 0 none true ],
    .seq [ .lit "</first-name>".data ] ]

/-- Source regex: the bounding claims region, identified by the marker with
its id attribute. -/
def CLAIMS_TAG_PATTERN : List RItem :=
  [ .seq [ .lit "<claims id=\"claims\">".data,
           .cls anyP 0 none false,
           .lit "</claims>".data ] ]

/-- Source regex: one claim-text sub-block, text captured lazily. -/
def CLAIMS_TEXT_PATTERN : List RItem :=
  [ .seq [ .lit "<claim-text>".data ],
    .grp 1 [ .cls anyP 0 none false ],
    .seq [ .lit "</claim-text>".data ] ]

/-- Source regex: the abstract region with its paragraph sub-element. -/
def ABSTRACT_PATTERN : List RItem :=
  [ .seq [ .lit "<abstract".data,
           .cls (fun c => c != '>') 0 none true,
           .lit ">".data,
           .cls (fun c => pySpace c) 0 none true,
           .lit "<p".data,
           .cls (fun c => c != '>') 0 none true,
           .lit ">".data ],
    .grp 1 [ .cls anyP 0 none false ],
    .seq [ .lit "</p>".data,
           .cls (fun c => pySpace c) 0 none true,
           .lit "</abstract>".data ] ]

/-- Source regex used to clean claim and abstract text: remove residual tags
or entity references. -/
def CLEANUP_PATTERN : List RItem :=
  [ .alt [ .lit "<".data, .cls (fun c => c != '>') 0 none true, .lit ">".data ]
         [ .lit "&".data, .cls wordP 1 none true, .lit ";".data ] ]

/-! ### Reasoning toolkit for the matcher -/

theorem clsRun_anyP : ∀ s : List Char, clsRun anyP s = s.length := by
  intro s
  induction s with
  | nil => rfl
  | cons c t ih => simp [clsRun, anyP, ih]

theorem mtchAtoms_nil {α : Type} (s : List Char) (caps : Caps)
    (k : List Char → Caps → Option α) : mtchAtoms [] s caps k = k s caps := rfl

theorem mtchAtoms_lit_pos {α : Type} {l s : List Char} (h : l <+: s)
    (atoms : List Atom) (caps : Caps) (k : List Char → Caps → Option α) :
    mtchAtoms (.lit l :: atoms) s caps k = mtchAtoms atoms (s.drop l.length) caps k := by
  simp [mtchAtoms, h]

theorem mtchAtoms_lit_neg {α : Type} {l s : List Char} (h : ¬ (l <+: s))
    (atoms : List Atom) (caps : Caps) (k : List Char → Caps → Option α) :
    mtchAtoms (.lit l :: atoms) s caps k = none := by
  simp [mtchAtoms, h]

theorem tryAsc_first_success {α : Type} {f : Nat → Option α} {v : α} :
    ∀ (k0 lo n : Nat), k0 < n → (∀ i < k0, f (lo + i) = none) →
      f (lo + k0) = some v → tryAsc f lo n = some v := by
  intro k0
  induction k0 with
  | zero =>
    intro lo n hn _ hs
    match n, hn with
    | n + 1, _ =>
      rw [Nat.add_zero] at hs
      simp [tryAsc, hs]
  | succ k0 ih =>
    intro lo n hn hb hs
    match n, hn with
    | n + 1, hn =>
      have h0 : f lo = none := by simpa using hb 0 (Nat.succ_pos k0)
      have : tryAsc f (lo + 1) n = some v := by
        refine ih (lo + 1) n (by omega) (fun i hi => ?_) ?_
        · have := hb (i + 1) (by omega)
          simpa [Nat.add_assoc, Nat.add_comm 1 i] using this
        · have : lo + 1 + k0 = lo + (k0 + 1) := by omega
          rw [this]; exact hs
      simpa [tryAsc, h0] using this

/-- The count actually tried for a class atom. -/
def clsTop (p : Char → Bool) (hi : Option Nat) (s : List Char) : Nat :=
  match hi with
  | some h => min h (clsRun p s)
  | none => clsRun p s

theorem mtchAtoms_cls_unfold {α : Type} (p : Char → Bool) (lo : Nat)
    (hi : Option Nat) (g : Bool) (atoms : List Atom) (s : List Char)
    (caps : Caps) (k : List Char → Caps → Option α) :
    mtchAtoms (.cls p lo hi g :: atoms) s caps k
      = if clsTop p hi s < lo then none
        else if g then
          tryDesc (fun c => mtchAtoms atoms (s.drop c) caps k) (clsTop p hi s)
            (clsTop p hi s - lo + 1)
        else
          tryAsc (fun c => mtchAtoms atoms (s.drop c) caps k) lo
            (clsTop p hi s - lo + 1) := by
  rfl

/-- When the tried count is forced (`top = lo`), both greedy and lazy matching
consume exactly `lo` characters. -/
theorem mtchAtoms_cls_forced {α : Type} {p : Char → Bool} {lo : Nat}
    {hi : Option Nat} {g : Bool} {s : List Char}
    (hm : clsTop p hi s = lo) (atoms : List Atom) (caps : Caps)
    (k : List Char → Caps → Option α) :
    mtchAtoms (.cls p lo hi g :: atoms) s caps k
      = mtchAtoms atoms (s.drop lo) caps k := by
  rw [mtchAtoms_cls_unfold, hm, if_neg (Nat.lt_irrefl lo), Nat.sub_self,
    Nat.zero_add]
  cases g
  · rw [if_neg Bool.false_ne_true]
    cases hf : mtchAtoms atoms (s.drop lo) caps k <;> simp [tryAsc, hf]
  · rw [if_pos rfl]
    cases hf : mtchAtoms atoms (s.drop lo) caps k <;> simp [tryDesc, hf]

/-- A greedy class atom whose continuation succeeds at the maximal count
consumes the maximal count. -/
theorem mtchAtoms_cls_greedy_top {α : Type} {p : Char → Bool} {lo : Nat}
    {hi : Option Nat} {s : List Char} {v : α}
    (hlo : lo ≤ clsTop p hi s) {atoms : List Atom} {caps : Caps}
    {k : List Char → Caps → Option α}
    (hs : mtchAtoms atoms (s.drop (clsTop p hi s)) caps k = some v) :
    mtchAtoms (.cls p lo hi true :: atoms) s caps k = some v := by
  rw [mtchAtoms_cls_unfold]
  simp only [Nat.not_lt.mpr hlo, if_false, if_true]
  have : clsTop p hi s - lo + 1 = (clsTop p hi s - lo) + 1 := rfl
  rw [this]
  simp [tryDesc, hs]

theorem prefix_drop_le_length {l s : List Char} {j : Nat}
    (h : l <+: s.drop j) (hne : l ≠ []) : j < s.length := by
  by_contra hc
  have : s.drop j = [] := List.drop_eq_nil_of_le (by omega)
  rw [this] at h
  exact hne (List.prefix_nil.mp h)

/-- The key stepping lemma for a lazy gap followed by a literal: matching
proceeds at the first occurrence of the literal, provided the continuation
succeeds there. -/
theorem mtchAtoms_lazy_lit {α : Type} {l : List Char} (hne : l ≠ [])
    {atoms : List Atom} {s : List Char} {caps : Caps}
    {k : List Char → Caps → Option α} {v : α} (j0 : Nat)
    (hj0 : l <+: s.drop j0) (hbefore : ∀ j < j0, ¬ (l <+: s.drop j))
    (hk : mtchAtoms atoms ((s.drop j0).drop l.length) caps k = some v) :
    mtchAtoms (.cls anyP 0 none false :: .lit l :: atoms) s caps k = some v := by
  rw [mtchAtoms_cls_unfold]
  have htop : clsTop anyP none s = s.length := clsRun_anyP s
  rw [htop, if_neg (Nat.not_lt_zero _), if_neg Bool.false_ne_true, Nat.sub_zero]
  refine tryAsc_first_success j0 0 (s.length + 1)
    (by have := prefix_drop_le_length hj0 hne; omega)
    (fun i hi => ?_) ?_
  · rw [Nat.zero_add]
    exact mtchAtoms_lit_neg (hbefore i hi) atoms caps k
  · rw [Nat.zero_add, mtchAtoms_lit_pos hj0 atoms caps k]
    exact hk

theorem mtchItems_seq {α : Type} (atoms : List Atom) (rest : List RItem)
    (s : List Char) (caps : Caps) (k : List Char → Caps → Option α) :
    mtchItems (.seq atoms :: rest) s caps k
      = mtchAtoms atoms s caps (fun s2 caps2 => mtchItems rest s2 caps2 k) := rfl

theorem mtchItems_grp {α : Type} (i : Nat) (sub : List Atom)
    (rest : List RItem) (s : List Char) (caps : Caps)
    (k : List Char → Caps → Option α) :
    mtchItems (.grp i sub :: rest) s caps k
      = mtchAtoms sub s caps (fun s2 caps2 =>
          mtchItems rest s2 ((i, s.take (s.length - s2.length)) :: caps2) k) := rfl

/-- A pattern whose first item starts with a literal fails instantly when the
literal is not a prefix of the input. -/
theorem mtchItems_head_lit_neg {α : Type} {l s : List Char}
    (h : ¬ (l <+: s)) (atoms : List Atom) (rest : List RItem) (caps : Caps)
    (k : List Char → Caps → Option α) :
    mtchItems (.seq (.lit l :: atoms) :: rest) s caps k = none := by
  rw [mtchItems_seq]
  exact mtchAtoms_lit_neg h _ _ _

/-- `search` of a pattern that starts with a literal fails on a text without
any occurrence of that literal. -/
theorem searchA_none_of_noOccur {l : List Char} {atoms : List Atom}
    {rest : List RItem} :
    ∀ {s : List Char}, noOccur l s →
      searchA (.seq (.lit l :: atoms) :: rest) s = none := by
  intro s
  induction s with
  | nil =>
    intro h
    have h0 : ¬ (l <+: ([] : List Char)) := by have := h 0; simpa using this
    simp [searchA, mtchItems_head_lit_neg h0]
  | cons c t ih =>
    intro h
    have h0 : ¬ (l <+: (c :: t)) := by have := h 0; simpa using this
    have ht : noOccur l t := fun j => by have := h (j + 1); simpa using this
    simp [searchA, mtchItems_head_lit_neg h0, ih ht]

/-- `search` of a pattern that starts with a literal skips any prefix of the
text in which the literal never begins. -/
theorem searchA_skip {l : List Char} {atoms : List Atom} {rest : List RItem} :
    ∀ (p s : List Char), (∀ j < p.length, ¬ (l <+: (p ++ s).drop j)) →
      searchA (.seq (.lit l :: atoms) :: rest) (p ++ s)
        = searchA (.seq (.lit l :: atoms) :: rest) s := by
  intro p
  induction p with
  | nil => intro s _; rfl
  | cons c p ih =>
    intro s h
    have h0 : ¬ (l <+: (c :: (p ++ s))) := by
      have := h 0 (by simp); simpa using this
    rw [List.cons_append]
    show (match mtchItems (.seq (.lit l :: atoms) :: rest) (c :: (p ++ s)) []
        (kposFor (c :: (p ++ s))) with
      | some v => some v
      | none => searchA (.seq (.lit l :: atoms) :: rest) (p ++ s)) = _
    rw [mtchItems_head_lit_neg h0]
    exact ih s (fun j hj => by
      have := h (j + 1) (by simp only [List.length_cons]; omega)
      simpa using this)

/-- `search` succeeds at the head position as soon as the match there
succeeds. -/
theorem searchA_cons_of_some {v : List Char × List Char × Caps}
    {r : List RItem} {c : Char} {t : List Char}
    (h : mtchItems r (c :: t) [] (kposFor (c :: t)) = some v) :
    searchA r (c :: t) = some v := by
  show (match mtchItems r (c :: t) [] (kposFor (c :: t)) with
    | some v => some v
    | none => searchA r t) = some v
  rw [h]

/-- No occurrence of `l` can begin strictly inside `m` in `m ++ l ++ x`, when
`l` does not occur in `m` alone and cannot overlap a shifted copy of
itself. -/
theorem no_occur_in_prepend {l m : List Char} (x : List Char)
    (hA : noSelfAlign l) (hm : ∀ j, ¬ (l <+: m.drop j)) :
    ∀ j < m.length, ¬ (l <+: (m ++ (l ++ x)).drop j) := by
  intro j hj hcon
  have hdropj : (m ++ (l ++ x)).drop j = m.drop j ++ (l ++ x) :=
    List.drop_append_of_le_length (Nat.le_of_lt hj)
  rw [hdropj] at hcon
  have hlen_mdj : (m.drop j).length = m.length - j := List.length_drop j m
  by_cases hcase : l.length ≤ (m.drop j).length
  · have htake : l = (m.drop j).take l.length := by
      have := List.prefix_iff_eq_take.mp hcon
      rwa [List.take_append_of_le_length hcase] at this
    have : l <+: m.drop j := by
      rw [htake]; exact List.take_prefix _ _
    exact hm j this
  · have ht : (m.drop j).length < l.length := Nat.lt_of_not_le hcase
    have htpos : 0 < (m.drop j).length := by rw [hlen_mdj]; omega
    have htake2 : l = m.drop j ++ (l ++ x).take (l.length - (m.drop j).length) := by
      have := List.prefix_iff_eq_take.mp hcon
      rwa [List.take_append_eq_append_take,
        List.take_of_length_le (Nat.le_of_lt ht)] at this
    have hdt : l.drop (m.drop j).length
        = (l ++ x).take (l.length - (m.drop j).length) := by
      have := congrArg (List.drop (m.drop j).length) htake2
      rwa [List.drop_append_of_le_length (Nat.le_refl _),
        List.drop_of_length_le (Nat.le_refl _), List.nil_append] at this
    have hlt : l.drop (m.drop j).length = l.take (l.length - (m.drop j).length) := by
      rw [hdt, List.take_append_of_le_length (by omega)]
    have : l.drop (m.drop j).length <+: l := by
      rw [hlt]; exact List.take_prefix _ _
    exact hA (m.drop j).length ht htpos this

/-! ### The per-field extractors and the parsing loop -/

def NAstr : List Char := "NA".data

/-- Python f-string `[` + `,`.join(list) + `]`. -/
def bracket (s : List Char) : List Char := '[' :: (s ++ [']'])

def joinComma : List (List Char) → List Char
  | [] => []
  | [x] => x
  | x :: xs => x ++ ',' :: joinComma xs

def extract_grant_id (doc : List Char) : List Char :=
  match searchA GRANT_ID_PATTERN doc with
  | some (_, _, caps) => capGet caps 1
  | none => NAstr

/-- The static kind-code to description mapping (`dict.get(kind, 'NA')`). -/
def kindMap (code : List Char) : List Char :=
  if code = "B2".data then
    "Utility Patent Grant (with a published application) issued on or after January 2, 2001.".data
  else if code = "B1".data then
    "Utility Patent Grant (no published application) issued on or after January 2, 2001.".data
  else if code = "S1".data then "Design Patent".data
  else if code = "E1".data then "Reissue Patent".data
  else if code = "P1".data then
    "Plant Patent Application published on or after January 2, 2001".data
  else if code = "P2".data then
    "Plant Patent Grant (no published application) issued on or after January 2, 2001".data
  else if code = "P3".data then
    "Plant Patent Grant (with a published application) issued on or after January 2, 2001".data
  else NAstr

def extract_kind (doc : List Char) : List Char :=
  match searchA KIND_PATTERN doc with
  | some (_, _, caps) => kindMap (capGet caps 1)
  | none => NAstr

def extract_patent_title (doc : List Char) : List Char :=
  match searchA PATENT_TITLE_PATTERN doc with
  | some (_, _, caps) => capGet caps 1
  | none => NAstr

/-- Python `int()` on the digit string captured by the claims-count regex. -/
def digitsToNat (s : List Char) : Nat :=
  s.foldl (fun acc c => acc * 10 + (c.toNat - '0'.toNat)) 0

def extract_number_of_claims (doc : List Char) : Nat :=
  match searchA NUMBER_OF_CLAIMS_PATTERN doc with
  | some (_, _, caps) => digitsToNat (capGet caps 1)
  | none => 0

/-- `len(CITATIONS_EXAMINER_COUNT_PATTERN.findall(doc))`: `findall` of a
literal pattern yields its non-overlapping occurrences scanned left to
right, which is what `countMatches` counts. -/
def extract_citations_examiner_count (doc : List Char) : Nat :=
  countMatches citExaminerLit doc

def extract_citations_applicant_count (doc : List Char) : Nat :=
  countMatches citApplicantLit doc

/-- The inventors field: the first inventors region is searched; when absent,
`.group()` on `None` raises and the bare except appends the NA string;
otherwise every pair matched inside the region is rendered "first last".
The list is then rendered as a bracketed comma-joined string. -/
def extract_inventors (doc : List Char) : List Char :=
  let inventor_list :=
    match searchA INVENTORS_TAG_PATTERN doc with
    | none => [NAstr]
    | some (m, _, _) =>
      (findallE INVENTORS_PATTERN m).map
        (fun x => capGet x.2 2 ++ ' ' :: capGet x.2 1)
  bracket (joinComma inventor_list)

/-- The values appended to the claims text column for one document.  When the
bounding claims region is absent, `.group()` on `None` raises AttributeError:
the except branch appends the NA string, and the unconditional append after
the try block then also appends the bracketed join of the (empty) claim list,
so this document contributes two values. -/
def claims_text_appends (doc : List Char) : List (List Char) :=
  match searchA CLAIMS_TAG_PATTERN doc with
  | none => [NAstr, bracket (joinComma [])]
  | some (m, _, _) =>
    let claim_list := (findallE CLAIMS_TEXT_PATTERN m).map
      (fun x => subRemove CLEANUP_PATTERN (capGet x.2 1))
    [bracket (joinComma claim_list)]

def extract_abstract (doc : List Char) : List Char :=
  match searchA ABSTRACT_PATTERN doc with
  | some (_, _, caps) => subRemove CLEANUP_PATTERN (capGet caps 1)
  | none => NAstr

/-- The nine per-field accumulator lists of the parsing loop. -/
structure ParseLists where
  grant_ids : List (List Char)
  kinds : List (List Char)
  patent_titles : List (List Char)
  num_claims : List Nat
  cit_examiner_counts : List Nat
  cit_applicant_counts : List Nat
  inventors : List (List Char)
  claims_texts : List (List Char)
  abstracts : List (List Char)
deriving DecidableEq

def emptyLists : ParseLists := ⟨[], [], [], [], [], [], [], [], []⟩

/-- One iteration of the parsing loop: every extractor appends exactly one
value, except the claims extraction, which appends `claims_text_appends`. -/
def parseStep (pl : ParseLists) (doc : List Char) : ParseLists :=
  { grant_ids := pl.grant_ids ++ [extract_grant_id doc]
    kinds := pl.kinds ++ [extract_kind doc]
    patent_titles := pl.patent_titles ++ [extract_patent_title doc]
    num_claims := pl.num_claims ++ [extract_number_of_claims doc]
    cit_examiner_counts :=
      pl.cit_examiner_counts ++ [extract_citations_examiner_count doc]
    cit_applicant_counts :=
      pl.cit_applicant_counts ++ [extract_citations_applicant_count doc]
    inventors := pl.inventors ++ [extract_inventors doc]
    claims_texts := pl.claims_texts ++ claims_text_appends doc
    abstracts := pl.abstracts ++ [extract_abstract doc] }

def parseAll (docs : List (List Char)) : ParseLists :=
  docs.foldl parseStep emptyLists

/-- One output record; field order is the output column order of the source
(after the reordering of the DataFrame columns). -/
structure Record where
  grant_id : List Char
  patent_title : List Char
  kind : List Char
  number_of_claims : Nat
  inventors : List Char
  citations_applicant_count : Nat
  citations_examiner_count : Nat
  claims_text : List Char
  abstract : List Char
deriving DecidableEq

/-- `pd.DataFrame({...})` on the nine lists.  Modelled from documented pandas
behavior: constructing a DataFrame from same-keyed lists of unequal lengths
raises ValueError; otherwise the rows are the lists zipped positionally. -/
def mkDataFrame (pl : ParseLists) : Except (List Char) (List Record) :=
  let n := pl.grant_ids.length
  if pl.kinds.length = n ∧ pl.patent_titles.length = n ∧
      pl.num_claims.length = n ∧ pl.cit_examiner_counts.length = n ∧
      pl.cit_applicant_counts.length = n ∧ pl.inventors.length = n ∧
      pl.claims_texts.length = n ∧ pl.abstracts.length = n then
    .ok ((List.range n).map (fun i =>
      { grant_id := pl.grant_ids.getD i []
        patent_title := pl.patent_titles.getD i []
        kind := pl.kinds.getD i []
        number_of_claims := pl.num_claims.getD i 0
        inventors := pl.inventors.getD i []
        citations_applicant_count := pl.cit_applicant_counts.getD i 0
        citations_examiner_count := pl.cit_examiner_counts.getD i 0
        claims_text := pl.claims_texts.getD i []
        abstract := pl.abstracts.getD i [] }))
  else .error "All arrays must be of the same length".data

/-- The whole front half of the pipeline: segmentation, extraction, record
assembly. -/
def pipeline (raw : List Char) : Except (List Char) (List Record) :=
  mkDataFrame (parseAll (clean_xml_docs raw))

/-! ### The Tabular Emitter: cells, tables, the flat (CSV) encoding -/

/-- A table cell after reload: pandas object (string), int64 integer,
float64 number (modelled with exact decimal arithmetic as a rational),
float64 infinity, or boolean. -/
inductive CellV where
  | str (s : List Char)
  | int (i : Int)
  | flt (q : Rat)
  | inf (neg : Bool)
  | boolv (b : Bool)
deriving DecidableEq

/-- A reconstructed table: column names and rows of cells. -/
structure DataTable where
  cols : List (List Char)
  rows : List (List CellV)
deriving DecidableEq

/-- The output column order of the source's DataFrame. -/
def dfCols : List (List Char) :=
  [ "grant_id".data, "patent_title".data, "kind".data, "number_of_claims".data,
    "inventors".data, "citations_applicant_count".data,
    "citations_examiner_count".data, "claims_text".data, "abstract".data ]

def rowOf (r : Record) : List CellV :=
  [ .str r.grant_id, .str r.patent_title, .str r.kind,
    .int r.number_of_claims, .str r.inventors,
    .int r.citations_applicant_count, .int r.citations_examiner_count,
    .str r.claims_text, .str r.abstract ]

/-- The DataFrame as a logical table. -/
def dfOf (rs : List Record) : DataTable :=
  { cols := dfCols, rows := rs.map rowOf }

/-- Decimal digit character. -/
def digitChar (d : Nat) : Char := Char.ofNat (48 + d)

def ntdAux : Nat → Nat → List Char → List Char
  | 0, _, acc => acc
  | fuel + 1, n, acc =>
    if n < 10 then digitChar n :: acc
    else ntdAux fuel (n / 10) (digitChar (n % 10) :: acc)

/-- Decimal rendering of a natural number (how an integer cell prints). -/
def natToDigits (n : Nat) : List Char := ntdAux (n + 1) n []

/-- Decimal rendering of an integer. -/
def intToDigits (i : Int) : List Char :=
  if i < 0 then '-' :: natToDigits i.natAbs else natToDigits i.natAbs

/-- The text a cell carries in the flat encoding.  The source's DataFrame
holds only string and int64 columns (the parsing loop appends strings and
counts), so the float/bool branches are never reached by the writer. -/
def cellStr : CellV → List Char
  | .str s => s
  | .int i => intToDigits i
  | .flt _ => []
  | .inf _ => []
  | .boolv _ => []

/-- Python csv QUOTE_MINIMAL: quote when the cell contains the delimiter,
the quote character, or a line-break character. -/
def needsQuote (s : List Char) : Bool :=
  s.any (fun c => c == ',' || c == '"' || c == '\n' || c == '\r')

/-- Double every quote character (csv quoting). -/
def escQ : List Char → List Char
  | [] => []
  | c :: t => if c = '"' then '"' :: '"' :: escQ t else c :: escQ t

def quoteCell (s : List Char) : List Char :=
  if needsQuote s then '"' :: (escQ s ++ ['"']) else s

/-- One line of the flat encoding. -/
def writeRow (cells : List (List Char)) : List Char :=
  joinComma (cells.map quoteCell)

/-- `df.to_csv(index=False)`: header line then one line per row, every line
terminated by a newline.  Modelled from the documented pandas csv format
(QUOTE_MINIMAL). -/
def csvOf (t : DataTable) : List Char :=
  ((t.cols :: t.rows.map (fun row => row.map cellStr)).map
    (fun cells => writeRow cells ++ ['\n'])).flatten

/-- State machine scanning csv text: state 0 reads an unquoted cell, state 1
is inside quotes, state 2 is just after a closing quote (a second quote means
a doubled, literal one).  Cells and rows are accumulated in reverse. -/
def csvAux (st : Nat) (cell : List Char) (row : List (List Char))
    (tbl : List (List (List Char))) : List Char → List (List (List Char))
  | [] =>
    if cell.isEmpty && row.isEmpty && st == 0 then tbl.reverse
    else ((cell.reverse :: row).reverse :: tbl).reverse
  | c :: t =>
    match st with
    | 1 =>
      if c = '"' then csvAux 2 cell row tbl t
      else csvAux 1 (c :: cell) row tbl t
    | 2 =>
      if c = '"' then csvAux 1 ('"' :: cell) row tbl t
      else if c = ',' then csvAux 0 [] (cell.reverse :: row) tbl t
      else if c = '\n' then csvAux 0 [] [] ((cell.reverse :: row).reverse :: tbl) t
      else csvAux 0 (c :: cell) row tbl t
    | _ =>
      if c = '"' then
        (if cell.isEmpty then csvAux 1 cell row tbl t
         else csvAux 0 ('"' :: cell) row tbl t)
      else if c = ',' then csvAux 0 [] (cell.reverse :: row) tbl t
      else if c = '\n' then csvAux 0 [] [] ((cell.reverse :: row).reverse :: tbl) t
      else csvAux 0 (c :: cell) row tbl t

/-- Split csv text into rows of raw cell strings. -/
def parseCsvRows (s : List Char) : List (List (List Char)) :=
  csvAux 0 [] [] [] s

/-- The whitespace the pandas C tokenizer's numeric parsers skip at either
end of a cell (C `isspace`). -/
def csvSpace (c : Char) : Bool :=
  c == ' ' || c == '\t' || c == '\n' || c == '\x0b' || c == '\x0c' ||
  c == '\x0d'

/-- Strip the skippable whitespace from both ends of a cell. -/
def stripWs (s : List Char) : List Char :=
  ((s.dropWhile csvSpace).reverse.dropWhile csvSpace).reverse

/-- Consume one optional leading sign; returns (negative, rest). -/
def splitSign (s : List Char) : Bool × List Char :=
  match s with
  | [] => (false, [])
  | c :: t => if c = '-' then (true, t) else if c = '+' then (false, t)
              else (false, s)

/-- A cell pandas' `str_to_int64` accepts: optional surrounding whitespace,
optional sign, one or more decimal digits.  (int64 overflow of very long
digit runs is not modelled; the round-trip theorem bounds its integer
fields below 2^63 instead.) -/
def intCell (s : List Char) : Bool :=
  let (_, d) := splitSign (stripWs s)
  !d.isEmpty && d.all Char.isDigit

/-- The signed integer value of an `intCell`. -/
def intVal (s : List Char) : Int :=
  let (neg, d) := splitSign (stripWs s)
  if neg then -(digitsToNat d : Int) else (digitsToNat d : Int)

/-- The case-insensitive infinity spellings `precise_xstrtod` accepts. -/
def infWord (r : List Char) : Bool :=
  (r.map Char.toLower == "inf".data) || (r.map Char.toLower == "infinity".data)

/-- An exponent suffix: optional sign then one or more digits. -/
def expPart (r : List Char) : Bool :=
  let (_, d) := splitSign r
  !d.isEmpty && d.all Char.isDigit

def expVal (r : List Char) : Int :=
  let (neg, d) := splitSign r
  if neg then -(digitsToNat d : Int) else (digitsToNat d : Int)

/-- A finite float body after the sign: digits, optional fraction, optional
exponent, at least one mantissa digit, nothing else. -/
def floatBody (r : List Char) : Bool :=
  let ip := r.takeWhile Char.isDigit
  let r1 := r.dropWhile Char.isDigit
  match r1 with
  | [] => !ip.isEmpty
  | c1 :: rest1 =>
    if c1 = '.' then
      let fp := rest1.takeWhile Char.isDigit
      let r2 := rest1.dropWhile Char.isDigit
      match r2 with
      | [] => !ip.isEmpty || !fp.isEmpty
      | c2 :: rest2 =>
        (c2 == 'e' || c2 == 'E') && (!ip.isEmpty || !fp.isEmpty) &&
          expPart rest2
    else (c1 == 'e' || c1 == 'E') && !ip.isEmpty && expPart rest1

/-- A cell pandas' float parser (`precise_xstrtod`) accepts: optional
surrounding whitespace, optional sign, then a finite number or an infinity
spelling. -/
def floatCell (s : List Char) : Bool :=
  let (_, r) := splitSign (stripWs s)
  infWord r || floatBody r

/-- Exact value of a `floatCell` (decimal-exact idealisation of float64:
binary rounding is not modelled; no proved theorem evaluates a float
column). -/
def ratOfParts (neg : Bool) (digs : List Char) (scale : Int) : Rat :=
  let base : Rat := (digitsToNat digs : Rat)
  let q : Rat :=
    if 0 ≤ scale then base * ((10 ^ scale.toNat : Nat) : Rat)
    else base / ((10 ^ (-scale).toNat : Nat) : Rat)
  if neg then -q else q

def fltVal (s : List Char) : CellV :=
  let (neg, r) := splitSign (stripWs s)
  if infWord r then .inf neg
  else
    let ip := r.takeWhile Char.isDigit
    let r1 := r.dropWhile Char.isDigit
    match r1 with
    | [] => .flt (ratOfParts neg ip 0)
    | c1 :: rest1 =>
      if c1 = '.' then
        let fp := rest1.takeWhile Char.isDigit
        let r2 := rest1.dropWhile Char.isDigit
        match r2 with
        | [] => .flt (ratOfParts neg (ip ++ fp) (-(fp.length : Int)))
        | _ :: rest2 =>
          .flt (ratOfParts neg (ip ++ fp) (expVal rest2 - fp.length))
      else .flt (ratOfParts neg ip (expVal rest1))

/-- The boolean words the C parser's bool conversion accepts. -/
def boolCell (s : List Char) : Bool :=
  s == "True".data || s == "TRUE".data || s == "true".data ||
  s == "False".data || s == "FALSE".data || s == "false".data

/-- Column-wise dtype inference of `read_csv` with `keep_default_na=False`:
try int64 on every cell, then float64, then bool, else keep strings
(0/1/2/3). -/
def colKind (rows : List (List (List Char))) (j : Nat) : Nat :=
  if rows.all (fun r => intCell (r.getD j [])) then 0
  else if rows.all (fun r => floatCell (r.getD j [])) then 1
  else if rows.all (fun r => boolCell (r.getD j [])) then 2
  else 3

def inferCell (kind : Nat) (s : List Char) : CellV :=
  if kind = 0 then .int (intVal s)
  else if kind = 1 then fltVal s
  else if kind = 2 then
    .boolv (s == "True".data || s == "TRUE".data || s == "true".data)
  else .str s

/-- `pd.read_csv(..., keep_default_na=False)`: the header names the
columns; each column is converted by the first numeric/bool parser that
accepts all of its cells, every other column keeps its strings.  Modelled
from documented pandas behavior and the C tokenizer's parsers. -/
def readCsvTable (s : List Char) : Option DataTable :=
  match parseCsvRows s with
  | [] => none
  | hdr :: data =>
    some { cols := hdr
           rows := data.map (fun r =>
             (List.range hdr.length).map (fun j =>
               inferCell (colKind data j) (r.getD j []))) }

/-- The flat round trip: emit the records as csv and reload. -/
def csvReload (rs : List Record) : Option DataTable :=
  readCsvTable (csvOf (dfOf rs))

/-! ### The nested (JSON) encoding -/

/-- The eight remaining fields of a record, in the column order the inner
mapping carries after `set_index('grant_id')`. -/
def innerOf (r : Record) : List (List Char × CellV) :=
  [ ("patent_title".data, .str r.patent_title),
    ("kind".data, .str r.kind),
    ("number_of_claims".data, .int r.number_of_claims),
    ("inventors".data, .str r.inventors),
    ("citations_applicant_count".data, .int r.citations_applicant_count),
    ("citations_examiner_count".data, .int r.citations_examiner_count),
    ("claims_text".data, .str r.claims_text),
    ("abstract".data, .str r.abstract) ]

/-- `df.set_index('grant_id')` followed by `df.to_dict(orient='index')`.
Modelled from documented pandas behavior: `to_dict(orient='index')` raises
ValueError when the index is not unique; otherwise it maps each index value
to the mapping of the remaining columns. -/
def toDictIndex (rs : List Record) :
    Except (List Char) (List (List Char × List (List Char × CellV))) :=
  if (rs.map Record.grant_id).Nodup then
    .ok (rs.map fun r => (r.grant_id, innerOf r))
  else
    .error "DataFrame index must be unique for orient=\x27index\x27.".data

/-- `re.sub` of a double quote by backslash-quote, applied by the JSON writer
to string values (and only to string values). -/
def escJson : List Char → List Char
  | [] => []
  | c :: t => if c = '"' then '\\' :: '"' :: escJson t else c :: escJson t

/-- One JSON value as the source writes it: strings in double quotes with
only the quote character escaped; integers bare.  The writer only ever
receives string and integer cells (the source's DataFrame columns), so the
remaining branches are never reached. -/
def jsonCell : CellV → List Char
  | .str s => '"' :: (escJson s ++ ['"'])
  | .int i => intToDigits i
  | .flt _ => []
  | .inf _ => []
  | .boolv _ => []

def joinSep (sep : List Char) : List (List Char) → List Char
  | [] => []
  | [x] => x
  | x :: xs => x ++ sep ++ joinSep sep xs

/-- One inner key/value pair, `"key": value`. -/
def jsonPair (kv : List Char × CellV) : List Char :=
  '"' :: (kv.1 ++ ("\": ".data ++ jsonCell kv.2))

/-- One outer entry, `"grant_id": { pairs }` (the source appends a comma per
pair and strips the last one, which joins the pairs by commas). -/
def jsonEntry (e : List Char × List (List Char × CellV)) : List Char :=
  '"' :: (e.1 ++ ("\": ".data ++
    ('\x7b' :: (joinSep ",".data (e.2.map jsonPair) ++ ['\x7d']))))

/-- The JSON string the source builds: entries joined by a comma and a
newline inside one outer object. -/
def jsonOf (entries : List (List Char × List (List Char × CellV))) : List Char :=
  '\x7b' :: (joinSep ",\n".data (entries.map jsonEntry) ++ ['\x7d'])

/-! #### A model of `json.load` for the two-level objects the writer emits.

Modelled from the documented behavior of the json library: strict parsing
(raw control characters in strings are rejected), escape sequences are
decoded, whitespace between tokens is skipped. -/

def jsonWs (c : Char) : Bool := c == ' ' || c == '\t' || c == '\n' || c == '\r'

def skipWs : List Char → List Char
  | [] => []
  | c :: t => if jsonWs c then skipWs t else c :: t

def hexVal (c : Char) : Option Nat :=
  if '0' ≤ c ∧ c ≤ '9' then some (c.toNat - 48)
  else if 'a' ≤ c ∧ c ≤ 'f' then some (c.toNat - 87)
  else if 'A' ≤ c ∧ c ≤ 'F' then some (c.toNat - 55)
  else none

def unescChar (c : Char) : Option Char :=
  if c = '"' then some '"'
  else if c = '\\' then some '\\'
  else if c = '/' then some '/'
  else if c = 'b' then some '\x08'
  else if c = 'f' then some '\x0c'
  else if c = 'n' then some '\n'
  else if c = 'r' then some '\r'
  else if c = 't' then some '\t'
  else none

/-- Parse a JSON string body (after the opening quote) up to its closing
quote. -/
def parseJStr : List Char → Option (List Char × List Char)
  | [] => none
  | c :: t =>
    if c = '\\' then
      match t with
      | [] => none
      | e :: t2 =>
        if e = 'u' then
          match t2 with
          | h1 :: h2 :: h3 :: h4 :: t3 =>
            match hexVal h1, hexVal h2, hexVal h3, hexVal h4 with
            | some a, some b, some c2, some d =>
              match parseJStr t3 with
              | some (s, r) =>
                some (Char.ofNat (((a * 16 + b) * 16 + c2) * 16 + d) :: s, r)
              | none => none
            | _, _, _, _ => none
          | _ => none
        else
          match unescChar e with
          | some u =>
            match parseJStr t2 with
            | some (s, r) => some (u :: s, r)
            | none => none
          | none => none
    else if c = '"' then some ([], t)
    else if c.toNat < 32 then none
    else
      match parseJStr t with
      | some (s, r) => some (c :: s, r)
      | none => none

/-- The maximal run of decimal digits. -/
def digitRun : List Char → (List Char × List Char)
  | [] => ([], [])
  | c :: t =>
    if c.isDigit then
      let (d, r) := digitRun t
      (c :: d, r)
    else ([], c :: t)

def parseJNum (s : List Char) : Option (Nat × List Char) :=
  let (d, r) := digitRun s
  if d.isEmpty then none else some (digitsToNat d, r)

/-- Parse one JSON value of the forms the writer emits: a string or a
nonnegative integer. -/
def parseJVal (s : List Char) : Option (CellV × List Char) :=
  match skipWs s with
  | [] => none
  | c :: t =>
    if c = '"' then
      match parseJStr t with
      | some (cs, r) => some (.str cs, r)
      | none => none
    else
      match parseJNum (c :: t) with
      | some (n, r) => some (.int n, r)
      | none => none

/-- Parse the (nonempty) field list of an inner object, consuming the
closing brace. -/
def parseJObjFields : Nat → List Char → Option (List (List Char × CellV) × List Char)
  | 0, _ => none
  | fuel + 1, s =>
    match skipWs s with
    | '"' :: t =>
      match parseJStr t with
      | some (k, r1) =>
        match skipWs r1 with
        | ':' :: r2 =>
          match parseJVal r2 with
          | some (v, r3) =>
            match skipWs r3 with
            | ',' :: r4 =>
              match parseJObjFields fuel r4 with
              | some (fs, r5) => some ((k, v) :: fs, r5)
              | none => none
            | '\x7d' :: r4 => some ([(k, v)], r4)
            | _ => none
          | none => none
        | _ => none
      | none => none
    | _ => none

/-- Parse the (nonempty) entry list of the outer object, consuming the
closing brace. -/
def parseJOuter : Nat → List Char →
    Option (List (List Char × List (List Char × CellV)) × List Char)
  | 0, _ => none
  | fuel + 1, s =>
    match skipWs s with
    | '"' :: t =>
      match parseJStr t with
      | some (k, r1) =>
        match skipWs r1 with
        | ':' :: r2 =>
          match skipWs r2 with
          | '\x7b' :: r3 =>
            match parseJObjFields (r3.length + 1) r3 with
            | some (fs, r4) =>
              match skipWs r4 with
              | ',' :: r5 =>
                match parseJOuter fuel r5 with
                | some (es, r6) => some ((k, fs) :: es, r6)
                | none => none
              | '\x7d' :: r5 => some ([(k, fs)], r5)
              | _ => none
            | none => none
          | _ => none
        | _ => none
      | none => none
    | _ => none

/-- `json.load` on the writer's output shape. -/
def jsonLoad (s : List Char) :
    Option (List (List Char × List (List Char × CellV))) :=
  match skipWs s with
  | '\x7b' :: t =>
    match parseJOuter (t.length + 1) t with
    | some (es, r) =>
      match skipWs r with
      | [] => some es
      | _ => none
    | none => none
  | _ => none

/-- `pd.DataFrame.from_dict(json_data, orient='index')` with the index named
`grant_id` and reset: the outer keys become the first column, the inner keys
(in first-entry order) the remaining columns. -/
def dfJsonTable (entries : List (List Char × List (List Char × CellV))) :
    DataTable :=
  match entries with
  | [] => { cols := ["grant_id".data], rows := [] }
  | e :: _ =>
    { cols := "grant_id".data :: e.2.map Prod.fst
      rows := entries.map (fun en => .str en.1 :: en.2.map Prod.snd) }

/-- The nested round trip: build the dict (which fails on duplicate ids),
emit the JSON text, reload it, and rebuild the table. -/
def jsonReload (rs : List Record) : Except (List Char) DataTable :=
  match toDictIndex rs with
  | .error e => .error e
  | .ok entries =>
    match jsonLoad (jsonOf entries) with
    | none => .error "Expecting value (JSONDecodeError)".data
    | some es => .ok (dfJsonTable es)

/-! #### Safety conditions under which the encodings are faithful -/

/-- A first character (after stripping whitespace) that cannot begin any
numeric token of the pandas parsers: not a digit, not a sign, not a decimal
point, and not an infinity spelling's initial. -/
def safeHead (c : Char) : Bool :=
  !(c.isDigit || c == '+' || c == '-' || c == '.' || c.toLower == 'i')

/-- A string cell whose reload is faithful: it is empty, or after stripping
the skippable whitespace it is nonempty and starts with a character that
defeats the int64 and float64 parsers; it is none of the boolean words; and
it contains no backslash and no control character (which the JSON writer
would pass through unescaped). -/
def safeCell (s : List Char) : Bool :=
  (s.isEmpty || (!(stripWs s).isEmpty && safeHead ((stripWs s).headD ' '))) &&
  (! boolCell s) &&
  s.all (fun c => c != '\\' && decide (32 ≤ c.toNat))

/-- The grant id additionally is written unescaped as a JSON key, so it must
not contain a double quote. -/
def safeKey (s : List Char) : Bool :=
  safeCell s && s.all (fun c => c != '"')

/-- A record whose two encodings reload faithfully: safe string cells (the
grant id also quote-free) and count fields inside int64 range (pandas
parses the reloaded digit cells as int64). -/
def safeRec (r : Record) : Bool :=
  safeKey r.grant_id && safeCell r.patent_title && safeCell r.kind &&
  safeCell r.inventors && safeCell r.claims_text && safeCell r.abstract &&
  decide (r.number_of_claims < 9223372036854775808) &&
  decide (r.citations_applicant_count < 9223372036854775808) &&
  decide (r.citations_examiner_count < 9223372036854775808)

/-- A record with the given grant id and title and default-ish fields, used
for concrete instances. -/
def sampleRec (g ti ab : List Char) : Record :=
  { grant_id := g
    patent_title := ti
    kind := "NA".data
    number_of_claims := 1
    inventors := "[NA]".data
    citations_applicant_count := 0
    citations_examiner_count := 2
    claims_text := "[]".data
    abstract := ab }

/-! ### Helper facts -/

theorem noOccur_of_ball {l s : List Char} (hne : l ≠ [])
    (h : ∀ j < s.length, ¬ (l <+: s.drop j)) : noOccur l s := by
  intro j
  by_cases hj : j < s.length
  · exact h j hj
  · have hd : s.drop j = [] := List.drop_eq_nil_of_le (by omega)
    rw [hd]
    exact fun hp => hne (List.prefix_nil.mp hp)

/-! ### Round-trip lemmas for the flat encoding -/

theorem csvAux_1_q (cell : List Char) (row : List (List Char))
    (tbl : List (List (List Char))) (t : List Char) :
    csvAux 1 cell row tbl ('"' :: t) = csvAux 2 cell row tbl t := by
  simp [csvAux]

theorem csvAux_1_c {c : Char} (hc : c ≠ '"') (cell : List Char)
    (row : List (List Char)) (tbl : List (List (List Char))) (t : List Char) :
    csvAux 1 cell row tbl (c :: t) = csvAux 1 (c :: cell) row tbl t := by
  simp [csvAux, hc]

theorem csvAux_2_q (cell : List Char) (row : List (List Char))
    (tbl : List (List (List Char))) (t : List Char) :
    csvAux 2 cell row tbl ('"' :: t) = csvAux 1 ('"' :: cell) row tbl t := by
  simp [csvAux]

theorem csvAux_2_comma (cell : List Char) (row : List (List Char))
    (tbl : List (List (List Char))) (t : List Char) :
    csvAux 2 cell row tbl (',' :: t)
      = csvAux 0 [] (cell.reverse :: row) tbl t := by
  simp [csvAux]

theorem csvAux_2_nl (cell : List Char) (row : List (List Char))
    (tbl : List (List (List Char))) (t : List Char) :
    csvAux 2 cell row tbl ('\n' :: t)
      = csvAux 0 [] [] ((cell.reverse :: row).reverse :: tbl) t := by
  simp [csvAux]

theorem csvAux_0_q_empty (row : List (List Char))
    (tbl : List (List (List Char))) (t : List Char) :
    csvAux 0 [] row tbl ('"' :: t) = csvAux 1 [] row tbl t := by
  simp [csvAux]

theorem csvAux_0_comma (cell : List Char) (row : List (List Char))
    (tbl : List (List (List Char))) (t : List Char) :
    csvAux 0 cell row tbl (',' :: t)
      = csvAux 0 [] (cell.reverse :: row) tbl t := by
  simp [csvAux]

theorem csvAux_0_nl (cell : List Char) (row : List (List Char))
    (tbl : List (List (List Char))) (t : List Char) :
    csvAux 0 cell row tbl ('\n' :: t)
      = csvAux 0 [] [] ((cell.reverse :: row).reverse :: tbl) t := by
  simp [csvAux]

theorem csvAux_0_c {c : Char} (h1 : c ≠ '"') (h2 : c ≠ ',') (h3 : c ≠ '\n')
    (cell : List Char) (row : List (List Char))
    (tbl : List (List (List Char))) (t : List Char) :
    csvAux 0 cell row tbl (c :: t) = csvAux 0 (c :: cell) row tbl t := by
  simp [csvAux, h1, h2, h3]

theorem csvAux_esc : ∀ (v cell : List Char) (row : List (List Char))
    (tbl : List (List (List Char))) (Z : List Char),
    csvAux 1 cell row tbl (escQ v ++ '"' :: Z)
      = csvAux 2 (v.reverse ++ cell) row tbl Z := by
  intro v
  induction v with
  | nil => intro cell row tbl Z; simp [escQ, csvAux_1_q]
  | cons c v ih =>
    intro cell row tbl Z
    by_cases hc : c = '"'
    · subst hc
      rw [show escQ ('"' :: v) = '"' :: '"' :: escQ v from by simp [escQ]]
      rw [List.cons_append, List.cons_append, csvAux_1_q, csvAux_2_q, ih]
      simp
    · rw [show escQ (c :: v) = c :: escQ v from by simp [escQ, hc]]
      rw [List.cons_append, csvAux_1_c hc, ih]
      simp

theorem csvAux_plain : ∀ (v : List Char),
    (∀ c ∈ v, c ≠ '"' ∧ c ≠ ',' ∧ c ≠ '\n') →
    ∀ (cell : List Char) (row : List (List Char))
      (tbl : List (List (List Char))) (Z : List Char),
    csvAux 0 cell row tbl (v ++ Z) = csvAux 0 (v.reverse ++ cell) row tbl Z := by
  intro v
  induction v with
  | nil => intro _ cell row tbl Z; simp
  | cons c v ih =>
    intro hv cell row tbl Z
    obtain ⟨h1, h2, h3⟩ := hv c (by simp)
    rw [List.cons_append, csvAux_0_c h1 h2 h3,
      ih (fun x hx => hv x (by simp [hx]))]
    simp

theorem needsQuote_chars {v : List Char} (h : needsQuote v = false) :
    ∀ c ∈ v, c ≠ '"' ∧ c ≠ ',' ∧ c ≠ '\n' := by
  intro c hc
  refine ⟨?_, ?_, ?_⟩ <;> intro he <;> subst he <;>
  · have ht : needsQuote v = true := by
      unfold needsQuote
      exact List.any_eq_true.mpr ⟨_, hc, by simp⟩
    rw [ht] at h
    exact Bool.noConfusion h

theorem csvAux_cell_comma (v : List Char) (row : List (List Char))
    (tbl : List (List (List Char))) (Z : List Char) :
    csvAux 0 [] row tbl (quoteCell v ++ ',' :: Z)
      = csvAux 0 [] (v :: row) tbl Z := by
  by_cases hq : needsQuote v
  · simp only [quoteCell, if_pos hq, List.cons_append, List.append_assoc,
      List.singleton_append]
    simp only [csvAux, if_pos rfl, List.isEmpty_nil, if_pos rfl]
    rw [csvAux_esc]
    simp [csvAux]
  · simp only [quoteCell, if_neg hq]
    rw [csvAux_plain v (needsQuote_chars (Bool.eq_false_iff.mpr hq)) [] row tbl
      (',' :: Z)]
    simp [csvAux]

theorem csvAux_cell_newline (v : List Char) (row : List (List Char))
    (tbl : List (List (List Char))) (Z : List Char) :
    csvAux 0 [] row tbl (quoteCell v ++ '\n' :: Z)
      = csvAux 0 [] [] ((v :: row).reverse :: tbl) Z := by
  by_cases hq : needsQuote v
  · simp only [quoteCell, if_pos hq, List.cons_append, List.append_assoc,
      List.singleton_append]
    simp only [csvAux, if_pos rfl, List.isEmpty_nil, if_pos rfl]
    rw [csvAux_esc]
    simp [csvAux]
  · simp only [quoteCell, if_neg hq]
    rw [csvAux_plain v (needsQuote_chars (Bool.eq_false_iff.mpr hq)) [] row tbl
      ('\n' :: Z)]
    simp [csvAux]

theorem csvAux_row : ∀ (cells : List (List Char)), cells ≠ [] →
    ∀ (row : List (List Char)) (tbl : List (List (List Char))) (Z : List Char),
    csvAux 0 [] row tbl (writeRow cells ++ '\n' :: Z)
      = csvAux 0 [] [] ((row.reverse ++ cells) :: tbl) Z := by
  intro cells
  induction cells with
  | nil => intro h; exact absurd rfl h
  | cons v cells ih =>
    intro _ row tbl Z
    match cells with
    | [] =>
      rw [show writeRow [v] = quoteCell v from rfl, csvAux_cell_newline]
      simp
    | w :: cells =>
      rw [show writeRow (v :: w :: cells)
          = quoteCell v ++ ',' :: writeRow (w :: cells) from rfl]
      rw [List.append_assoc, List.cons_append, csvAux_cell_comma,
        ih (by simp) (v :: row) tbl Z]
      simp

theorem csvAux_file : ∀ (rowsL : List (List (List Char))),
    (∀ row ∈ rowsL, row ≠ []) →
    ∀ (tbl : List (List (List Char))),
    csvAux 0 [] [] tbl
        ((rowsL.map (fun cells => writeRow cells ++ ['\n'])).flatten)
      = tbl.reverse ++ rowsL := by
  intro rowsL
  induction rowsL with
  | nil => intro _ tbl; simp [csvAux]
  | cons r rest ih =>
    intro h tbl
    simp only [List.map_cons, List.flatten_cons, List.append_assoc,
      List.singleton_append]
    rw [csvAux_row r (h r (by simp)) [] tbl]
    rw [ih (fun x hx => h x (by simp [hx])) _]
    simp

/-- The csv text of a table parses back to its header and its cell texts. -/
theorem parseCsvRows_csvOf (t : DataTable) (hc : t.cols ≠ [])
    (hr : ∀ row ∈ t.rows, row ≠ []) :
    parseCsvRows (csvOf t)
      = t.cols :: t.rows.map (fun row => row.map cellStr) := by
  unfold parseCsvRows csvOf
  rw [csvAux_file (t.cols :: t.rows.map (fun row => row.map cellStr))
    (by
      intro row hrow
      rcases List.mem_cons.mp hrow with hrow | hrow
      · subst hrow; exact hc
      · obtain ⟨r0, hr0, rfl⟩ := List.mem_map.mp hrow
        simp only [ne_eq, List.map_eq_nil_iff]
        exact hr r0 hr0) []]
  simp

/-! ### Decimal rendering round trip -/

theorem digitChar_isDigit {d : Nat} (h : d < 10) : (digitChar d).isDigit = true := by
  interval_cases d <;> decide

theorem digitChar_sub {d : Nat} (h : d < 10) :
    (digitChar d).toNat - '0'.toNat = d := by
  interval_cases d <;> decide

theorem ntdAux_acc : ∀ (fuel n : Nat) (acc : List Char),
    ntdAux fuel n acc = ntdAux fuel n [] ++ acc := by
  intro fuel
  induction fuel with
  | zero => intro n acc; simp [ntdAux]
  | succ fuel ih =>
    intro n acc
    by_cases h : n < 10
    · simp [ntdAux, h]
    · rw [show ntdAux (fuel + 1) n acc
          = ntdAux fuel (n / 10) (digitChar (n % 10) :: acc) from by
        simp [ntdAux, h]]
      rw [show ntdAux (fuel + 1) n []
          = ntdAux fuel (n / 10) [digitChar (n % 10)] from by
        simp [ntdAux, h]]
      rw [ih (n / 10) (digitChar (n % 10) :: acc),
        ih (n / 10) [digitChar (n % 10)]]
      simp

theorem ntdAux_foldl : ∀ (fuel n : Nat), n < fuel → ∀ (v : Nat),
    (ntdAux fuel n []).foldl (fun acc c => acc * 10 + (c.toNat - '0'.toNat)) v
      = v * 10 ^ (ntdAux fuel n []).length + n := by
  intro fuel
  induction fuel with
  | zero => intro n h; omega
  | succ fuel ih =>
    intro n h v
    by_cases h10 : n < 10
    · rw [show ntdAux (fuel + 1) n [] = [digitChar n] from by simp [ntdAux, h10]]
      simp only [List.foldl_cons, List.foldl_nil, List.length_cons,
        List.length_nil, digitChar_sub h10, Nat.zero_add, pow_one]
    · rw [show ntdAux (fuel + 1) n []
          = ntdAux fuel (n / 10) [digitChar (n % 10)] from by
        simp [ntdAux, h10]]
      rw [ntdAux_acc fuel (n / 10) [digitChar (n % 10)]]
      have hlt : n / 10 < fuel := by
        have := Nat.div_lt_self (show 0 < n by omega) (show 1 < 10 by omega)
        omega
      rw [List.foldl_append, ih (n / 10) hlt v]
      simp only [List.foldl_cons, List.foldl_nil, List.length_append,
        List.length_cons, List.length_nil]
      rw [digitChar_sub (Nat.mod_lt n (by omega))]
      calc (v * 10 ^ (ntdAux fuel (n / 10) []).length + n / 10) * 10 + n % 10
          = v * (10 ^ (ntdAux fuel (n / 10) []).length * 10)
              + (n / 10 * 10 + n % 10) := by ring
        _ = v * 10 ^ ((ntdAux fuel (n / 10) []).length + (0 + 1)) + n := by
            rw [show n / 10 * 10 + n % 10 = n from by omega]
            rw [Nat.pow_succ 10 (ntdAux fuel (n / 10) []).length]

theorem digitsToNat_natToDigits (n : Nat) : digitsToNat (natToDigits n) = n := by
  unfold digitsToNat natToDigits
  rw [ntdAux_foldl (n + 1) n (Nat.lt_succ_self n) 0]
  simp

theorem ntdAux_digits : ∀ (fuel n : Nat) (acc : List Char),
    (∀ c ∈ acc, c.isDigit = true) →
    ∀ c ∈ ntdAux fuel n acc, c.isDigit = true := by
  intro fuel
  induction fuel with
  | zero => intro n acc hacc; simpa [ntdAux] using hacc
  | succ fuel ih =>
    intro n acc hacc
    by_cases h10 : n < 10
    · rw [show ntdAux (fuel + 1) n acc = digitChar n :: acc from by
        simp [ntdAux, h10]]
      intro c hc
      rcases List.mem_cons.mp hc with rfl | hc
      · exact digitChar_isDigit h10
      · exact hacc c hc
    · rw [show ntdAux (fuel + 1) n acc
          = ntdAux fuel (n / 10) (digitChar (n % 10) :: acc) from by
        simp [ntdAux, h10]]
      refine ih (n / 10) (digitChar (n % 10) :: acc) ?_
      intro c hc
      rcases List.mem_cons.mp hc with rfl | hc
      · exact digitChar_isDigit (Nat.mod_lt n (by omega))
      · exact hacc c hc

theorem ntdAux_ne_nil : ∀ (fuel n : Nat) (acc : List Char), acc ≠ [] →
    ntdAux fuel n acc ≠ [] := by
  intro fuel
  induction fuel with
  | zero => intro n acc hacc; simpa [ntdAux] using hacc
  | succ fuel ih =>
    intro n acc hacc
    by_cases h10 : n < 10
    · rw [show ntdAux (fuel + 1) n acc = digitChar n :: acc from by
        simp [ntdAux, h10]]
      simp
    · rw [show ntdAux (fuel + 1) n acc
          = ntdAux fuel (n / 10) (digitChar (n % 10) :: acc) from by
        simp [ntdAux, h10]]
      exact ih (n / 10) _ (by simp)

theorem natToDigits_ne_nil (n : Nat) : natToDigits n ≠ [] := by
  unfold natToDigits
  by_cases h10 : n < 10
  · rw [show ntdAux (n + 1) n [] = [digitChar n] from by simp [ntdAux, h10]]
    simp
  · rw [show ntdAux (n + 1) n []
        = ntdAux n (n / 10) [digitChar (n % 10)] from by simp [ntdAux, h10]]
    exact ntdAux_ne_nil n (n / 10) _ (by simp)

theorem intToDigits_natCast (n : Nat) : intToDigits (n : Int) = natToDigits n := by
  unfold intToDigits
  rw [if_neg (by omega)]
  simp

theorem natToDigits_head (n : Nat) :
    ∃ hd tl, natToDigits n = hd :: tl ∧ hd.isDigit = true := by
  cases h : natToDigits n with
  | nil => exact absurd h (natToDigits_ne_nil n)
  | cons a b =>
    refine ⟨a, b, rfl, ?_⟩
    refine ntdAux_digits (n + 1) n [] (by simp) a ?_
    show a ∈ natToDigits n
    rw [h]; simp

theorem digit_not_csvSpace {c : Char} (h : c.isDigit = true) :
    csvSpace c = false := by
  cases hw : csvSpace c
  · rfl
  · exfalso
    have hc : c = ' ' ∨ c = '\t' ∨ c = '\n' ∨ c = '\x0b' ∨ c = '\x0c' ∨
        c = '\x0d' := by
      simpa [csvSpace, or_assoc] using hw
    rcases hc with rfl | rfl | rfl | rfl | rfl | rfl <;>
      exact absurd h (by decide)

theorem dropWhile_csvSpace_digits {s : List Char}
    (h : ∀ c ∈ s, c.isDigit = true) : s.dropWhile csvSpace = s := by
  cases s with
  | nil => rfl
  | cons a t =>
    simp [List.dropWhile_cons, digit_not_csvSpace (h a (by simp))]

theorem stripWs_digits {s : List Char} (h : ∀ c ∈ s, c.isDigit = true) :
    stripWs s = s := by
  unfold stripWs
  rw [dropWhile_csvSpace_digits h]
  rw [dropWhile_csvSpace_digits (fun c hc => h c (List.mem_reverse.mp hc))]
  exact List.reverse_reverse s

theorem splitSign_not_sign {c : Char} (h1 : c ≠ '-') (h2 : c ≠ '+')
    (t : List Char) : splitSign (c :: t) = (false, c :: t) := by
  simp [splitSign, h1, h2]

theorem splitSign_digit {c : Char} (h : c.isDigit = true) (t : List Char) :
    splitSign (c :: t) = (false, c :: t) := by
  refine splitSign_not_sign ?_ ?_ t <;> intro he <;> rw [he] at h <;>
    exact absurd h (by decide)

theorem intCell_natToDigits (n : Nat) : intCell (natToDigits n) = true := by
  obtain ⟨hd, tl, heq, hdig⟩ := natToDigits_head n
  have hds : ∀ c ∈ natToDigits n, c.isDigit = true :=
    fun c hc => ntdAux_digits (n + 1) n [] (by simp) c hc
  have hall : (hd :: tl).all Char.isDigit = true := by
    refine List.all_eq_true.mpr ?_
    intro c hc
    refine hds c ?_
    rw [heq]; exact hc
  unfold intCell
  rw [stripWs_digits hds, heq, splitSign_digit hdig]
  simp [hall]

theorem intCell_intToDigits_nat (n : Nat) :
    intCell (intToDigits (n : Int)) = true := by
  rw [intToDigits_natCast]; exact intCell_natToDigits n

theorem intVal_natToDigits (n : Nat) : intVal (natToDigits n) = (n : Int) := by
  obtain ⟨hd, tl, heq, hdig⟩ := natToDigits_head n
  have hds : ∀ c ∈ natToDigits n, c.isDigit = true :=
    fun c hc => ntdAux_digits (n + 1) n [] (by simp) c hc
  unfold intVal
  rw [stripWs_digits hds, heq, splitSign_digit hdig, ← heq]
  simp [digitsToNat_natToDigits]

theorem intVal_intToDigits_nat (n : Nat) :
    intVal (intToDigits (n : Int)) = (n : Int) := by
  rw [intToDigits_natCast]; exact intVal_natToDigits n

theorem floatBody_head_false {c : Char} {t : List Char}
    (hd : c.isDigit = false) (hdot : c ≠ '.') : floatBody (c :: t) = false := by
  unfold floatBody
  simp [List.takeWhile_cons, List.dropWhile_cons, hd, hdot]

theorem infWord_head_false {c : Char} {t : List Char}
    (h : c.toLower ≠ 'i') : infWord (c :: t) = false := by
  unfold infWord
  simp
  exact ⟨fun hci => absurd hci h, fun hci => absurd hci h⟩

theorem safeCell_not_num {s : List Char} (h : safeCell s = true) :
    intCell s = false ∧ floatCell s = false ∧ boolCell s = false := by
  have hparts : (s.isEmpty ||
        (!(stripWs s).isEmpty && safeHead ((stripWs s).headD ' '))) = true ∧
      (! boolCell s) = true ∧
      s.all (fun c => c != '\\' && decide (32 ≤ c.toNat)) = true := by
    simp only [safeCell, Bool.and_eq_true] at h
    tauto
  obtain ⟨h1, h2, _⟩ := hparts
  have hbool : boolCell s = false := by simpa using h2
  by_cases hse : s = []
  · subst hse
    exact ⟨by decide, by decide, by decide⟩
  · have hne : s.isEmpty = false := by simpa [List.isEmpty_iff] using hse
    have hg : (!(stripWs s).isEmpty && safeHead ((stripWs s).headD ' '))
        = true := by
      rw [hne] at h1
      simpa using h1
    obtain ⟨hgn, hgh⟩ : (!(stripWs s).isEmpty) = true ∧
        safeHead ((stripWs s).headD ' ') = true := by simpa using hg
    obtain ⟨c, t, hst⟩ : ∃ c t, stripWs s = c :: t := by
      cases hx : stripWs s with
      | nil => rw [hx] at hgn; exact absurd hgn (by decide)
      | cons a b => exact ⟨a, b, rfl⟩
    have hhead : safeHead c = true := by
      rw [hst] at hgh
      simpa using hgh
    have hsh : c.isDigit = false ∧ c ≠ '+' ∧ c ≠ '-' ∧ c ≠ '.' ∧
        c.toLower ≠ 'i' := by
      simpa [safeHead, not_or, or_assoc, and_assoc] using hhead
    obtain ⟨hd, hp, hm, hdot, hi⟩ := hsh
    have hsplit : splitSign (stripWs s) = (false, c :: t) := by
      rw [hst]
      exact splitSign_not_sign hm hp t
    refine ⟨?_, ?_, hbool⟩
    · unfold intCell
      rw [hsplit]
      have hall : (c :: t).all Char.isDigit = false := by
        simp [List.all_cons, hd]
      simp [hall]
    · unfold floatCell
      rw [hsplit]
      simp [floatBody_head_false hd hdot, infWord_head_false hi]

theorem jStrOK_of_safeCell {s : List Char} (h : safeCell s = true) :
    ∀ c ∈ s, c ≠ '\\' ∧ 32 ≤ c.toNat := by
  have h3 : s.all (fun c => c != '\\' && decide (32 ≤ c.toNat)) = true := by
    simp only [safeCell, Bool.and_eq_true] at h
    tauto
  intro c hc
  have := List.all_eq_true.mp h3 c hc
  simpa using this

theorem key_noquote_of_safeKey {s : List Char} (h : safeKey s = true) :
    ∀ c ∈ s, c ≠ '"' := by
  simp only [safeKey, Bool.and_eq_true] at h
  intro c hc
  have := List.all_eq_true.mp h.2 c hc
  simpa using this

theorem safeCell_of_safeKey {s : List Char} (h : safeKey s = true) :
    safeCell s = true := by
  simp only [safeKey, Bool.and_eq_true] at h
  exact h.1

theorem safeRec_parts {r : Record} (h : safeRec r = true) :
    safeKey r.grant_id = true ∧ safeCell r.patent_title = true ∧
    safeCell r.kind = true ∧ safeCell r.inventors = true ∧
    safeCell r.claims_text = true ∧ safeCell r.abstract = true := by
  simp only [safeRec, Bool.and_eq_true] at h
  tauto

/-! ### The csv reload reproduces the table of a safe record list -/

/-- The raw cell texts one record contributes to the flat encoding. -/
def cellTexts (r : Record) : List (List Char) := (rowOf r).map cellStr

theorem csvReload_eq (r0 : Record) (rest : List Record)
    (hs : ∀ r ∈ r0 :: rest, safeRec r = true) :
    csvReload (r0 :: rest) = some (dfOf (r0 :: rest)) := by
  have hrows : ∀ row ∈ (dfOf (r0 :: rest)).rows, row ≠ [] := by
    intro row hrow
    obtain ⟨r, hr, rfl⟩ := List.mem_map.mp hrow
    simp [rowOf]
  have hp : parseCsvRows (csvOf (dfOf (r0 :: rest)))
      = dfCols :: (r0 :: rest).map cellTexts := by
    rw [parseCsvRows_csvOf (dfOf (r0 :: rest)) (by simp [dfOf, dfCols]) hrows]
    show dfCols :: ((r0 :: rest).map rowOf).map (fun row => row.map cellStr) = _
    rw [List.map_map]
    rfl
  have pr0 := safeRec_parts (hs r0 (by simp))
  have hs0 := safeCell_not_num (safeCell_of_safeKey pr0.1)
  have hs1 := safeCell_not_num pr0.2.1
  have hs2 := safeCell_not_num pr0.2.2.1
  have hs4 := safeCell_not_num pr0.2.2.2.1
  have hs7 := safeCell_not_num pr0.2.2.2.2.1
  have hs8 := safeCell_not_num pr0.2.2.2.2.2
  have hk0 : colKind (cellTexts r0 :: List.map cellTexts rest) 0 = 3 := by
    have hi : intCell ((cellTexts r0).getD 0 []) = false := hs0.1
    have hf : floatCell ((cellTexts r0).getD 0 []) = false := hs0.2.1
    have hb : boolCell ((cellTexts r0).getD 0 []) = false := hs0.2.2
    simp only [colKind, List.all_cons, hi, hf, hb, Bool.false_and]
    simp
  have hk1 : colKind (cellTexts r0 :: List.map cellTexts rest) 1 = 3 := by
    have hi : intCell ((cellTexts r0).getD 1 []) = false := hs1.1
    have hf : floatCell ((cellTexts r0).getD 1 []) = false := hs1.2.1
    have hb : boolCell ((cellTexts r0).getD 1 []) = false := hs1.2.2
    simp only [colKind, List.all_cons, hi, hf, hb, Bool.false_and]
    simp
  have hk2 : colKind (cellTexts r0 :: List.map cellTexts rest) 2 = 3 := by
    have hi : intCell ((cellTexts r0).getD 2 []) = false := hs2.1
    have hf : floatCell ((cellTexts r0).getD 2 []) = false := hs2.2.1
    have hb : boolCell ((cellTexts r0).getD 2 []) = false := hs2.2.2
    simp only [colKind, List.all_cons, hi, hf, hb, Bool.false_and]
    simp
  have hk4 : colKind (cellTexts r0 :: List.map cellTexts rest) 4 = 3 := by
    have hi : intCell ((cellTexts r0).getD 4 []) = false := hs4.1
    have hf : floatCell ((cellTexts r0).getD 4 []) = false := hs4.2.1
    have hb : boolCell ((cellTexts r0).getD 4 []) = false := hs4.2.2
    simp only [colKind, List.all_cons, hi, hf, hb, Bool.false_and]
    simp
  have hk7 : colKind (cellTexts r0 :: List.map cellTexts rest) 7 = 3 := by
    have hi : intCell ((cellTexts r0).getD 7 []) = false := hs7.1
    have hf : floatCell ((cellTexts r0).getD 7 []) = false := hs7.2.1
    have hb : boolCell ((cellTexts r0).getD 7 []) = false := hs7.2.2
    simp only [colKind, List.all_cons, hi, hf, hb, Bool.false_and]
    simp
  have hk8 : colKind (cellTexts r0 :: List.map cellTexts rest) 8 = 3 := by
    have hi : intCell ((cellTexts r0).getD 8 []) = false := hs8.1
    have hf : floatCell ((cellTexts r0).getD 8 []) = false := hs8.2.1
    have hb : boolCell ((cellTexts r0).getD 8 []) = false := hs8.2.2
    simp only [colKind, List.all_cons, hi, hf, hb, Bool.false_and]
    simp
  have hk3 : colKind (cellTexts r0 :: List.map cellTexts rest) 3 = 0 := by
    have hall : (cellTexts r0 :: List.map cellTexts rest).all
        (fun r => intCell (r.getD 3 [])) = true := by
      refine List.all_eq_true.mpr ?_
      intro x hx
      rcases List.mem_cons.mp hx with rfl | hx
      · exact intCell_intToDigits_nat r0.number_of_claims
      · obtain ⟨r, hr, rfl⟩ := List.mem_map.mp hx
        exact intCell_intToDigits_nat r.number_of_claims
    simp only [colKind, hall]
    simp
  have hk5 : colKind (cellTexts r0 :: List.map cellTexts rest) 5 = 0 := by
    have hall : (cellTexts r0 :: List.map cellTexts rest).all
        (fun r => intCell (r.getD 5 [])) = true := by
      refine List.all_eq_true.mpr ?_
      intro x hx
      rcases List.mem_cons.mp hx with rfl | hx
      · exact intCell_intToDigits_nat r0.citations_applicant_count
      · obtain ⟨r, hr, rfl⟩ := List.mem_map.mp hx
        exact intCell_intToDigits_nat r.citations_applicant_count
    simp only [colKind, hall]
    simp
  have hk6 : colKind (cellTexts r0 :: List.map cellTexts rest) 6 = 0 := by
    have hall : (cellTexts r0 :: List.map cellTexts rest).all
        (fun r => intCell (r.getD 6 [])) = true := by
      refine List.all_eq_true.mpr ?_
      intro x hx
      rcases List.mem_cons.mp hx with rfl | hx
      · exact intCell_intToDigits_nat r0.citations_examiner_count
      · obtain ⟨r, hr, rfl⟩ := List.mem_map.mp hx
        exact intCell_intToDigits_nat r.citations_examiner_count
    simp only [colKind, hall]
    simp
  unfold csvReload readCsvTable
  rw [hp]
  refine congrArg some ?_
  unfold dfOf
  congr 1
  rw [List.map_map]
  refine List.map_congr_left ?_
  intro r hr
  show (List.range dfCols.length).map
      (fun j => inferCell (colKind ((r0 :: rest).map cellTexts) j)
        ((cellTexts r).getD j [])) = rowOf r
  rw [show List.range dfCols.length = [0, 1, 2, 3, 4, 5, 6, 7, 8] from by decide]
  simp only [List.map_cons, List.map_nil]
  rw [hk0, hk1, hk2, hk3, hk4, hk5, hk6, hk7, hk8]
  show [CellV.str r.grant_id, CellV.str r.patent_title, CellV.str r.kind,
      CellV.int (intVal (intToDigits (r.number_of_claims : Int))),
      CellV.str r.inventors,
      CellV.int (intVal (intToDigits (r.citations_applicant_count : Int))),
      CellV.int (intVal (intToDigits (r.citations_examiner_count : Int))),
      CellV.str r.claims_text, CellV.str r.abstract] = rowOf r
  rw [intVal_intToDigits_nat r.number_of_claims,
    intVal_intToDigits_nat r.citations_applicant_count,
    intVal_intToDigits_nat r.citations_examiner_count]
  rfl

/-! ### The json reload reproduces the nested encoding of a safe record list -/

theorem digit_not_ws {c : Char} (h : c.isDigit = true) : jsonWs c = false := by
  cases hw : jsonWs c
  · rfl
  · exfalso
    have hc : c = ' ' ∨ c = '\t' ∨ c = '\n' ∨ c = '\x0d' := by
      simpa [jsonWs, or_assoc] using hw
    rcases hc with rfl | rfl | rfl | rfl <;> exact absurd h (by decide)

theorem skipWs_nonws {c : Char} (h : jsonWs c = false) (t : List Char) :
    skipWs (c :: t) = c :: t := by
  simp [skipWs, h]

theorem skipWs_ws {c : Char} (h : jsonWs c = true) (t : List Char) :
    skipWs (c :: t) = skipWs t := by
  simp [skipWs, h]

theorem parseJStr_noesc : ∀ (s : List Char),
    (∀ c ∈ s, c ≠ '"' ∧ c ≠ '\\' ∧ 32 ≤ c.toNat) →
    ∀ Z, parseJStr (s ++ '"' :: Z) = some (s, Z) := by
  intro s
  induction s with
  | nil =>
    intro _ Z
    rw [List.nil_append, parseJStr.eq_def]
    simp
  | cons c s ih =>
    intro h Z
    obtain ⟨h1, h2, h3⟩ := h c (by simp)
    have hlt : ¬ (c.toNat < 32) := by omega
    have ihz := ih (fun x hx => h x (List.mem_cons_of_mem c hx)) Z
    rw [List.cons_append, parseJStr.eq_def]
    simp only [if_neg h2, if_neg h1, if_neg hlt, ihz]

theorem parseJStr_esc : ∀ (s : List Char),
    (∀ c ∈ s, c ≠ '\\' ∧ 32 ≤ c.toNat) →
    ∀ Z, parseJStr (escJson s ++ '"' :: Z) = some (s, Z) := by
  intro s
  induction s with
  | nil =>
    intro _ Z
    rw [show escJson [] = [] from rfl, List.nil_append, parseJStr.eq_def]
    simp
  | cons c s ih =>
    intro h Z
    obtain ⟨h2, h3⟩ := h c (by simp)
    have ihz := ih (fun x hx => h x (List.mem_cons_of_mem c hx)) Z
    by_cases hq : c = '"'
    · subst hq
      rw [show escJson ('"' :: s) = '\\' :: '"' :: escJson s from by
        simp [escJson]]
      rw [List.cons_append, List.cons_append, parseJStr.eq_def]
      simp [unescChar, ihz]
    · rw [show escJson (c :: s) = c :: escJson s from by simp [escJson, hq]]
      have hlt : ¬ (c.toNat < 32) := by omega
      rw [List.cons_append, parseJStr.eq_def]
      simp only [if_neg h2, if_neg hq, if_neg hlt, ihz]

theorem digitRun_append : ∀ (d : List Char), (∀ c ∈ d, c.isDigit = true) →
    ∀ (c0 : Char), c0.isDigit = false → ∀ r,
    digitRun (d ++ c0 :: r) = (d, c0 :: r) := by
  intro d
  induction d with
  | nil => intro _ c0 h0 r; simp [digitRun, h0]
  | cons c d ih =>
    intro h c0 h0 r
    have hc := h c (by simp)
    rw [List.cons_append]
    simp [digitRun, hc,
      ih (fun x hx => h x (List.mem_cons_of_mem c hx)) c0 h0 r]

theorem parseJNum_nat (n : Nat) {c0 : Char} (h0 : c0.isDigit = false)
    (r : List Char) :
    parseJNum (natToDigits n ++ c0 :: r) = some (n, c0 :: r) := by
  unfold parseJNum
  rw [digitRun_append (natToDigits n)
    (fun c hc => ntdAux_digits (n + 1) n [] (by simp) c hc) c0 h0 r]
  have hie : (natToDigits n).isEmpty = false := by
    simpa [List.isEmpty_iff] using natToDigits_ne_nil n
  simp [hie, digitsToNat_natToDigits]

/-- Safety of one written JSON value: string payloads carry no backslash and
no control character. -/
def jValOKP : CellV → Prop
  | .str s => ∀ c ∈ s, c ≠ '\\' ∧ 32 ≤ c.toNat
  | .int i => 0 ≤ i
  | _ => False

theorem parseJVal_cell (v : CellV) (hv : jValOKP v) (c0 : Char)
    (h0 : c0.isDigit = false) (hw : jsonWs c0 = false) (hq : c0 ≠ '"')
    (r : List Char) :
    parseJVal (' ' :: (jsonCell v ++ c0 :: r)) = some (v, c0 :: r) := by
  cases v with
  | str s =>
    have hskip : skipWs (' ' :: (jsonCell (CellV.str s) ++ c0 :: r))
        = '"' :: (escJson s ++ '"' :: c0 :: r) := by
      simp [skipWs, jsonCell, jsonWs]
    unfold parseJVal
    rw [hskip]
    simp [parseJStr_esc s hv (c0 :: r)]
  | flt q => exact (hv : False).elim
  | inf b => exact (hv : False).elim
  | boolv b => exact (hv : False).elim
  | int i =>
    obtain ⟨n, rfl⟩ : ∃ n : Nat, i = (n : Int) :=
      ⟨i.toNat, (Int.toNat_of_nonneg hv).symm⟩
    have hjc : jsonCell (CellV.int (n : Int)) = natToDigits n := by
      show intToDigits (n : Int) = natToDigits n
      exact intToDigits_natCast n
    obtain ⟨hd, tl, heq, hdig⟩ := natToDigits_head n
    have hw0 : jsonWs hd = false := digit_not_ws hdig
    have hne : ¬ (hd = '"') := by
      intro hx
      rw [hx] at hdig
      exact absurd hdig (by decide)
    have hskip : skipWs (' ' :: (jsonCell (CellV.int (n : Int)) ++ c0 :: r))
        = hd :: (tl ++ c0 :: r) := by
      rw [hjc, heq, List.cons_append,
        skipWs_ws (show jsonWs ' ' = true by decide), skipWs_nonws hw0]
    unfold parseJVal
    rw [hskip]
    have hnum : parseJNum (hd :: (tl ++ c0 :: r)) = some (n, c0 :: r) := by
      rw [show hd :: (tl ++ c0 :: r) = natToDigits n ++ c0 :: r from by
        rw [heq]; simp]
      exact parseJNum_nat n h0 r
    simp [if_neg hne, hnum]

theorem jsonPair_ne_nil (kv : List Char × CellV) : jsonPair kv ≠ [] := by
  simp [jsonPair]

theorem jsonEntry_ne_nil (e : List Char × List (List Char × CellV)) :
    jsonEntry e ≠ [] := by
  simp [jsonEntry]

theorem joinSep_length_ge (sep : List Char) : ∀ (l : List (List Char)),
    (∀ x ∈ l, x ≠ []) → l.length ≤ (joinSep sep l).length := by
  intro l
  induction l with
  | nil => intro _; simp [joinSep]
  | cons x l ih =>
    intro h
    cases l with
    | nil =>
      have hx : x ≠ [] := h x (by simp)
      have h1 : 0 < x.length := List.length_pos.mpr hx
      simpa [joinSep] using h1
    | cons y l2 =>
      have hx : x ≠ [] := h x (by simp)
      have ihh := ih (fun z hz => h z (List.mem_cons_of_mem x hz))
      rw [show joinSep sep (x :: y :: l2) = x ++ sep ++ joinSep sep (y :: l2)
        from rfl]
      simp only [List.length_cons, List.length_append] at ihh ⊢
      have h1 : 0 < x.length := List.length_pos.mpr hx
      omega

theorem parseJObjFields_round :
    ∀ (fs : List (List Char × CellV)) (fuel : Nat),
    fs ≠ [] → fs.length ≤ fuel →
    (∀ kv ∈ fs, (∀ c ∈ kv.1, c ≠ '"' ∧ c ≠ '\\' ∧ 32 ≤ c.toNat)
      ∧ jValOKP kv.2) →
    ∀ rest, parseJObjFields fuel
        (joinSep ",".data (fs.map jsonPair) ++ '\x7d' :: rest)
      = some (fs, rest) := by
  intro fs
  induction fs with
  | nil => intro fuel h; exact absurd rfl h
  | cons kv fs ih =>
    intro fuel _ hlen hok rest
    obtain ⟨k1, v1⟩ := kv
    obtain ⟨hkey1, hval1⟩ := hok (k1, v1) (by simp)
    cases fuel with
    | zero => simp at hlen
    | succ fuel =>
      cases fs with
      | nil =>
        have e1 : joinSep ",".data ([(k1, v1)].map jsonPair) ++ '\x7d' :: rest
            = '"' :: (k1 ++ '"' :: ':' :: ' ' ::
                (jsonCell v1 ++ '\x7d' :: rest)) := by
          show ('"' :: ((k1, v1).1 ++ ("\": ".data ++ jsonCell (k1, v1).2)))
              ++ '\x7d' :: rest = _
          rw [show ("\": ".data : List Char) = ['"', ':', ' '] from rfl]
          simp
        rw [e1]
        have hstr := parseJStr_noesc k1 hkey1
          (':' :: ' ' :: (jsonCell v1 ++ '\x7d' :: rest))
        have hval2 := parseJVal_cell v1 hval1 '\x7d' (by decide) (by decide)
          (by decide) rest
        simp [parseJObjFields, skipWs, jsonWs, hstr, hval2]
      | cons kv2 fs2 =>
        have e1 : joinSep ",".data (((k1, v1) :: kv2 :: fs2).map jsonPair)
              ++ '\x7d' :: rest
            = '"' :: (k1 ++ '"' :: ':' :: ' ' :: (jsonCell v1 ++ ',' ::
                (joinSep ",".data ((kv2 :: fs2).map jsonPair)
                  ++ '\x7d' :: rest))) := by
          show ('"' :: ((k1, v1).1 ++ ("\": ".data ++ jsonCell (k1, v1).2))
                ++ ",".data
                ++ joinSep ",".data ((kv2 :: fs2).map jsonPair))
              ++ '\x7d' :: rest = _
          rw [show ("\": ".data : List Char) = ['"', ':', ' '] from rfl]
          rw [show (",".data : List Char) = [','] from rfl]
          simp
        rw [e1]
        have hstr := parseJStr_noesc k1 hkey1
          (':' :: ' ' :: (jsonCell v1 ++ ',' ::
            (joinSep ",".data ((kv2 :: fs2).map jsonPair) ++ '\x7d' :: rest)))
        have hval2 := parseJVal_cell v1 hval1 ',' (by decide) (by decide)
          (by decide)
          (joinSep ",".data ((kv2 :: fs2).map jsonPair) ++ '\x7d' :: rest)
        have hlen2 : (kv2 :: fs2).length ≤ fuel := by
          simp only [List.length_cons] at hlen ⊢
          omega
        have hih := ih fuel (by simp) hlen2
          (fun kv hkv => hok kv (List.mem_cons_of_mem _ hkv)) rest
        simp only [List.map_cons] at hstr hval2 hih
        simp [parseJObjFields, skipWs, jsonWs, hstr, hval2, hih]

theorem parseJOuter_ws (fuel : Nat) {c : Char} (h : jsonWs c = true)
    (s : List Char) : parseJOuter fuel (c :: s) = parseJOuter fuel s := by
  cases fuel with
  | zero => rfl
  | succ fuel => simp [parseJOuter, skipWs, h]

theorem parseJOuter_round :
    ∀ (es : List (List Char × List (List Char × CellV))) (fuel : Nat),
    es ≠ [] → es.length ≤ fuel →
    (∀ e ∈ es, (∀ c ∈ e.1, c ≠ '"' ∧ c ≠ '\\' ∧ 32 ≤ c.toNat) ∧ e.2 ≠ [] ∧
      ∀ kv ∈ e.2, (∀ c ∈ kv.1, c ≠ '"' ∧ c ≠ '\\' ∧ 32 ≤ c.toNat)
        ∧ jValOKP kv.2) →
    ∀ rest, parseJOuter fuel
        (joinSep ",\n".data (es.map jsonEntry) ++ '\x7d' :: rest)
      = some (es, rest) := by
  intro es
  induction es with
  | nil => intro fuel h; exact absurd rfl h
  | cons e es ih =>
    intro fuel _ hlen hok rest
    obtain ⟨k1, fs1⟩ := e
    obtain ⟨hkey1, hfs1ne, hfs1ok⟩ := hok (k1, fs1) (by simp)
    have hjplen : ∀ (TAIL2 : List Char), fs1.length ≤
        (joinSep ",".data (fs1.map jsonPair) ++ '\x7d' :: TAIL2).length + 1 := by
      intro TAIL2
      have h1 := joinSep_length_ge ",".data (fs1.map jsonPair) (by
        intro x hx
        obtain ⟨kv, hkv, rfl⟩ := List.mem_map.mp hx
        exact jsonPair_ne_nil kv)
      simp only [List.length_map] at h1
      simp only [List.length_append, List.length_cons]
      omega
    cases fuel with
    | zero => simp at hlen
    | succ fuel =>
      cases es with
      | nil =>
        have e1 : joinSep ",\n".data ([(k1, fs1)].map jsonEntry)
              ++ '\x7d' :: rest
            = '"' :: (k1 ++ '"' :: ':' :: ' ' :: '\x7b' ::
                (joinSep ",".data (fs1.map jsonPair)
                  ++ '\x7d' :: ('\x7d' :: rest))) := by
          show ('"' :: ((k1, fs1).1 ++ ("\": ".data ++ ('\x7b' ::
                (joinSep ",".data ((k1, fs1).2.map jsonPair) ++ ['\x7d'])))))
              ++ '\x7d' :: rest = _
          rw [show ("\": ".data : List Char) = ['"', ':', ' '] from rfl]
          simp
        rw [e1]
        have hstr := parseJStr_noesc k1 hkey1
          (':' :: ' ' :: '\x7b' :: (joinSep ",".data (fs1.map jsonPair)
            ++ '\x7d' :: ('\x7d' :: rest)))
        have hobj := parseJObjFields_round fs1
          ((joinSep ",".data (fs1.map jsonPair)
            ++ '\x7d' :: ('\x7d' :: rest)).length + 1)
          hfs1ne (hjplen ('\x7d' :: rest)) hfs1ok ('\x7d' :: rest)
        simp at hstr hobj
        simp [parseJOuter, skipWs, jsonWs, hstr, hobj]
      | cons e2 es2 =>
        have e1 : joinSep ",\n".data (((k1, fs1) :: e2 :: es2).map jsonEntry)
              ++ '\x7d' :: rest
            = '"' :: (k1 ++ '"' :: ':' :: ' ' :: '\x7b' ::
                (joinSep ",".data (fs1.map jsonPair)
                  ++ '\x7d' :: (',' :: '\n' ::
                    (joinSep ",\n".data ((e2 :: es2).map jsonEntry)
                      ++ '\x7d' :: rest)))) := by
          show ('"' :: ((k1, fs1).1 ++ ("\": ".data ++ ('\x7b' ::
                (joinSep ",".data ((k1, fs1).2.map jsonPair) ++ ['\x7d']))))
                ++ ",\n".data
                ++ joinSep ",\n".data ((e2 :: es2).map jsonEntry))
              ++ '\x7d' :: rest = _
          rw [show ("\": ".data : List Char) = ['"', ':', ' '] from rfl]
          rw [show (",\n".data : List Char) = [',', '\n'] from rfl]
          simp
        rw [e1]
        have hstr := parseJStr_noesc k1 hkey1
          (':' :: ' ' :: '\x7b' :: (joinSep ",".data (fs1.map jsonPair)
            ++ '\x7d' :: (',' :: '\n' ::
              (joinSep ",\n".data ((e2 :: es2).map jsonEntry)
                ++ '\x7d' :: rest))))
        have hobj := parseJObjFields_round fs1
          ((joinSep ",".data (fs1.map jsonPair)
            ++ '\x7d' :: (',' :: '\n' ::
              (joinSep ",\n".data ((e2 :: es2).map jsonEntry)
                ++ '\x7d' :: rest))).length + 1)
          hfs1ne
          (hjplen (',' :: '\n' ::
            (joinSep ",\n".data ((e2 :: es2).map jsonEntry) ++ '\x7d' :: rest)))
          hfs1ok
          (',' :: '\n' ::
            (joinSep ",\n".data ((e2 :: es2).map jsonEntry) ++ '\x7d' :: rest))
        have hlen2 : (e2 :: es2).length ≤ fuel := by
          simp only [List.length_cons] at hlen ⊢
          omega
        have hih := ih fuel (by simp) hlen2
          (fun e he => hok e (List.mem_cons_of_mem _ he)) rest
        have hws := parseJOuter_ws fuel (show jsonWs '\n' = true by decide)
          (joinSep ",\n".data ((e2 :: es2).map jsonEntry) ++ '\x7d' :: rest)
        simp at hstr hobj hws hih
        simp [parseJOuter, skipWs, jsonWs, hstr, hobj, hws, hih]

theorem jsonLoad_jsonOf (es : List (List Char × List (List Char × CellV)))
    (hne : es ≠ [])
    (hok : ∀ e ∈ es, (∀ c ∈ e.1, c ≠ '"' ∧ c ≠ '\\' ∧ 32 ≤ c.toNat)
      ∧ e.2 ≠ [] ∧
      ∀ kv ∈ e.2, (∀ c ∈ kv.1, c ≠ '"' ∧ c ≠ '\\' ∧ 32 ≤ c.toNat)
        ∧ jValOKP kv.2) :
    jsonLoad (jsonOf es) = some es := by
  have hfuel : es.length
      ≤ (joinSep ",\n".data (es.map jsonEntry) ++ ['\x7d']).length + 1 := by
    have h1 := joinSep_length_ge ",\n".data (es.map jsonEntry) (by
      intro x hx
      obtain ⟨e, he, rfl⟩ := List.mem_map.mp hx
      exact jsonEntry_ne_nil e)
    simp only [List.length_map] at h1
    simp only [List.length_append]
    omega
  have hout := parseJOuter_round es
    ((joinSep ",\n".data (es.map jsonEntry) ++ ['\x7d']).length + 1)
    hne hfuel hok []
  unfold jsonLoad jsonOf
  rw [skipWs_nonws (by decide)]
  simp at hout
  simp [hout, skipWs]

theorem jsonOK_of_safe (r0 : Record) (rest : List Record)
    (hs : ∀ r ∈ r0 :: rest, safeRec r = true) :
    ∀ e ∈ (r0 :: rest).map (fun r => (r.grant_id, innerOf r)),
      (∀ c ∈ e.1, c ≠ '"' ∧ c ≠ '\\' ∧ 32 ≤ c.toNat) ∧ e.2 ≠ [] ∧
      ∀ kv ∈ e.2, (∀ c ∈ kv.1, c ≠ '"' ∧ c ≠ '\\' ∧ 32 ≤ c.toNat)
        ∧ jValOKP kv.2 := by
  intro e he
  obtain ⟨r, hr, rfl⟩ := List.mem_map.mp he
  have pr := safeRec_parts (hs r hr)
  refine ⟨?_, by simp [innerOf], ?_⟩
  · intro c hc
    have h1 := key_noquote_of_safeKey pr.1 c hc
    have h2 := jStrOK_of_safeCell (safeCell_of_safeKey pr.1) c hc
    exact ⟨h1, h2.1, h2.2⟩
  · intro kv hkv
    simp only [innerOf, List.mem_cons, List.not_mem_nil, or_false] at hkv
    rcases hkv with rfl | rfl | rfl | rfl | rfl | rfl | rfl | rfl
    · exact ⟨(by decide : ∀ c ∈ ("patent_title".data : List Char),
        c ≠ '"' ∧ c ≠ '\\' ∧ 32 ≤ c.toNat), jStrOK_of_safeCell pr.2.1⟩
    · exact ⟨(by decide : ∀ c ∈ ("kind".data : List Char),
        c ≠ '"' ∧ c ≠ '\\' ∧ 32 ≤ c.toNat), jStrOK_of_safeCell pr.2.2.1⟩
    · exact ⟨(by decide : ∀ c ∈ ("number_of_claims".data : List Char),
        c ≠ '"' ∧ c ≠ '\\' ∧ 32 ≤ c.toNat), Int.natCast_nonneg _⟩
    · exact ⟨(by decide : ∀ c ∈ ("inventors".data : List Char),
        c ≠ '"' ∧ c ≠ '\\' ∧ 32 ≤ c.toNat), jStrOK_of_safeCell pr.2.2.2.1⟩
    · exact ⟨(by decide : ∀ c ∈ ("citations_applicant_count".data : List Char),
        c ≠ '"' ∧ c ≠ '\\' ∧ 32 ≤ c.toNat), Int.natCast_nonneg _⟩
    · exact ⟨(by decide : ∀ c ∈ ("citations_examiner_count".data : List Char),
        c ≠ '"' ∧ c ≠ '\\' ∧ 32 ≤ c.toNat), Int.natCast_nonneg _⟩
    · exact ⟨(by decide : ∀ c ∈ ("claims_text".data : List Char),
        c ≠ '"' ∧ c ≠ '\\' ∧ 32 ≤ c.toNat), jStrOK_of_safeCell pr.2.2.2.2.1⟩
    · exact ⟨(by decide : ∀ c ∈ ("abstract".data : List Char),
        c ≠ '"' ∧ c ≠ '\\' ∧ 32 ≤ c.toNat), jStrOK_of_safeCell pr.2.2.2.2.2⟩

theorem dfJsonTable_entries (r0 : Record) (rest : List Record) :
    dfJsonTable ((r0 :: rest).map fun r => (r.grant_id, innerOf r))
      = dfOf (r0 :: rest) := by
  show ({ cols := "grant_id".data :: (innerOf r0).map Prod.fst
          rows := ((r0 :: rest).map fun r => (r.grant_id, innerOf r)).map
            (fun en => CellV.str en.1 :: en.2.map Prod.snd) } : DataTable)
      = dfOf (r0 :: rest)
  unfold dfOf
  congr 1
  rw [List.map_map]
  refine List.map_congr_left ?_
  intro r hr
  rfl

theorem jsonReload_eq (r0 : Record) (rest : List Record)
    (hnd : ((r0 :: rest).map Record.grant_id).Nodup)
    (hs : ∀ r ∈ r0 :: rest, safeRec r = true) :
    jsonReload (r0 :: rest) = .ok (dfOf (r0 :: rest)) := by
  unfold jsonReload toDictIndex
  rw [if_pos hnd]
  have hload := jsonLoad_jsonOf
    ((r0 :: rest).map fun r => (r.grant_id, innerOf r))
    (by simp) (jsonOK_of_safe r0 rest hs)
  have hdf := dfJsonTable_entries r0 rest
  simp only [List.map_cons] at hload hdf
  simp [hload, hdf]

/-! ### Claim theorems -/

/-- C1: the claim says the pipeline produces exactly one Record per segmented
Document with all nine per-field sequences of equal length.  The code violates
this: on a raw input whose single document lacks the bounding claims region,
the claims column receives two values (the except branch appends the NA
string and the unconditional append after the try block adds the bracketed
empty list) while the other columns receive one value each, and the DataFrame
construction then fails instead of producing one Record per Document. -/
theorem spec_c1_bug :
    (parseAll (clean_xml_docs
        "<?xml version=\"1.0\" encoding=\"UTF-8\"?><a>b</a>".data)).claims_texts.length = 2
    ∧ (parseAll (clean_xml_docs
        "<?xml version=\"1.0\" encoding=\"UTF-8\"?><a>b</a>".data)).grant_ids.length = 1
    ∧ pipeline "<?xml version=\"1.0\" encoding=\"UTF-8\"?><a>b</a>".data
        = .error "All arrays must be of the same length".data := by
  exact ⟨by decide, by decide, by rfl⟩

/-- C2: the claim says that when the bounding claims region is absent the
claims extractor emits exactly one value, the empty bracketed list.  In the
code, the failed search raises inside the try block, the except branch
appends the NA string, and the append after the try block also runs: two
values are appended, the NA string and then the empty bracketed list. -/
theorem spec_c2_bug (doc : List Char)
    (h : searchA CLAIMS_TAG_PATTERN doc = none) :
    claims_text_appends doc = [NAstr, "[]".data]
    ∧ claims_text_appends doc ≠ ["[]".data] := by
  have e : claims_text_appends doc = [NAstr, bracket (joinComma [])] := by
    unfold claims_text_appends
    rw [h]
  constructor
  · rw [e]; decide
  · rw [e]; decide

theorem spec_c2_bug_witness :
    claims_text_appends "<a>b</a>".data = [NAstr, "[]".data]
    ∧ claims_text_appends "<a>b</a>".data ≠ ["[]".data] :=
  spec_c2_bug "<a>b</a>".data (by decide)

/-- C3 counterexample: a document whose inventors region is present but
contains no inventor pairs.  The claim says the extractor emits the
single-element NA list; the code emits the empty bracketed list, because the
successful region search means no exception is raised and the empty findall
result leaves the inventor list empty. -/
theorem spec_c3_counterexample :
    (searchA INVENTORS_TAG_PATTERN "<inventors></inventors>".data).isSome = true
    ∧ extract_inventors "<inventors></inventors>".data = "[]".data
    ∧ "[]".data ≠ "[NA]".data := by
  refine ⟨?_, ?_, ?_⟩ <;> decide

/-- C3 amended: when the inventors region is absent the extractor emits the
single-element NA list; when the region is present it emits one
"first last" string per pair matched inside the region, in match order (and
hence the empty bracketed list when no pairs are found).  The concrete
two-inventor document shows the pairs appear in source order. -/
theorem spec_c3 :
    (∀ doc : List Char, searchA INVENTORS_TAG_PATTERN doc = none →
      extract_inventors doc = "[NA]".data)
    ∧ (∀ (doc m r : List Char) (c : Caps),
        searchA INVENTORS_TAG_PATTERN doc = some (m, r, c) →
        extract_inventors doc
          = bracket (joinComma ((findallE INVENTORS_PATTERN m).map
              (fun x => capGet x.2 2 ++ ' ' :: capGet x.2 1))))
    ∧ extract_inventors
        ("<inventors><inventor><addressbook><last-name>Doe</last-name>" ++
         "<first-name>Jane</first-name></addressbook></inventor>" ++
         "<inventor><addressbook><last-name>Roe</last-name>" ++
         "<first-name>Rick</first-name></addressbook></inventor></inventors>").data
        = "[Jane Doe,Rick Roe]".data := by
  refine ⟨?_, ?_, ?_⟩
  · intro doc h
    unfold extract_inventors
    rw [h]
    decide
  · intro doc m r c h
    unfold extract_inventors
    rw [h]
  · decide

theorem spec_c3_witness :
    extract_inventors "<a>b</a>".data = "[NA]".data :=
  spec_c3.1 "<a>b</a>".data (by decide)

/-- C4 counterexample: a title element whose opening tag lacks an id
attribute.  The claim says the title is still captured; the code's pattern
requires the literal ` id="` in the opening tag, so the extractor falls back
to NA. -/
theorem spec_c4_counterexample :
    extract_patent_title
        "<invention-title>Dual chamber syringe</invention-title>".data = NAstr
    ∧ NAstr ≠ "Dual chamber syringe".data := by
  exact ⟨by decide, by decide⟩

/-- C4 amended: patent_title is the text captured between invention-title
markers only when the opening marker carries an id attribute (the pattern
anchors on the literal ` id="`); a document in which that anchored opening
marker never occurs yields NA, and a title element carrying the id attribute
is captured. -/
theorem spec_c4 :
    (∀ doc : List Char, noOccur "<invention-title id=\"".data doc →
      extract_patent_title doc = NAstr)
    ∧ extract_patent_title
        "<invention-title id=\"d0e43\">Dual chamber syringe</invention-title>".data
        = "Dual chamber syringe".data := by
  constructor
  · intro doc h
    have hs : searchA PATENT_TITLE_PATTERN doc = none :=
      searchA_none_of_noOccur h
    unfold extract_patent_title
    rw [hs]
  · decide

theorem spec_c4_witness :
    extract_patent_title "<invention-title>T</invention-title>".data = NAstr :=
  spec_c4.1 "<invention-title>T</invention-title>".data
    (noOccur_of_ball (by decide) (by decide))

/-- C5: both citation counts equal the number of positions at which their
literal label occurs, anywhere in the document; zero occurrences give 0.
The concrete scenario has two examiner labels and one applicant label. -/
theorem spec_c5 :
    (∀ doc : List Char,
      extract_citations_examiner_count doc = occCount citExaminerLit doc)
    ∧ (∀ doc : List Char,
      extract_citations_applicant_count doc = occCount citApplicantLit doc)
    ∧ extract_citations_examiner_count
        ("a<category>cited by examiner</category>b" ++
         "<category>cited by examiner</category>" ++
         "<category>cited by applicant</category>").data = 2
    ∧ extract_citations_applicant_count
        ("a<category>cited by examiner</category>b" ++
         "<category>cited by examiner</category>" ++
         "<category>cited by applicant</category>").data = 1
    ∧ extract_citations_examiner_count "<a>b</a>".data = 0 := by
  refine ⟨?_, ?_, ?_, ?_, ?_⟩
  · intro doc
    exact countMatches_eq_occCount (by decide) doc
  · intro doc
    exact countMatches_eq_occCount (by decide) doc
  · decide
  · decide
  · decide

/-- C6: the number of Documents equals the number of positions at which the
declaration marker occurs minus the segments that are empty or
whitespace-only after newline removal and entity substitution (stated
additively); the text before the first marker is discarded; an input with
zero markers yields the empty sequence. -/
theorem spec_c6 :
    (∀ raw : List Char,
      (clean_xml_docs raw).length
        + (((((pySplit xmlDecl raw).drop 1).map
              (fun d => replaceAll "\n".data [] d)).map applyEntities).filter
            (fun d => ! hasNonSpace d)).length
        = occCount xmlDecl raw)
    ∧ (∀ raw : List Char, occCount xmlDecl raw = 0 → clean_xml_docs raw = [])
    ∧ (∀ p body : List Char,
        (∀ j < p.length, ¬ (xmlDecl <+: (p ++ (xmlDecl ++ body)).drop j)) →
        clean_xml_docs (p ++ (xmlDecl ++ body)) = clean_xml_docs (xmlDecl ++ body)) := by
  have hA : noSelfAlign xmlDecl := by decide
  refine ⟨?_, ?_, clean_xml_docs_discard_preamble⟩
  · intro raw
    have e1 : clean_xml_docs raw
        = ((((pySplit xmlDecl raw).drop 1).map
            (fun d => replaceAll "\n".data [] d)).map applyEntities).filter
          hasNonSpace := rfl
    rw [e1]
    have e2 := (@List.length_eq_length_filter_add _
      ((((pySplit xmlDecl raw).drop 1).map
        (fun d => replaceAll "\n".data [] d)).map applyEntities) hasNonSpace).symm
    rw [e2, List.length_map, List.length_map, List.length_drop, pySplit_length,
      countMatches_eq_occCount hA]
    omega
  · intro raw h
    have hcm : countMatches xmlDecl raw = 0 := by
      rw [countMatches_eq_occCount hA, h]
    have hlen : (pySplit xmlDecl raw).length = 1 := by
      rw [pySplit_length, hcm]
    have hdrop : (pySplit xmlDecl raw).drop 1 = [] :=
      List.drop_eq_nil_of_le (by omega)
    unfold clean_xml_docs
    rw [hdrop]
    rfl

theorem spec_c6_witness :
    clean_xml_docs "abc".data = []
    ∧ clean_xml_docs ("pre".data ++ (xmlDecl ++ "<a>b</a>".data))
        = clean_xml_docs (xmlDecl ++ "<a>b</a>".data) :=
  ⟨spec_c6.2.1 "abc".data (by decide),
   spec_c6.2.2 "pre".data "<a>b</a>".data (by decide)⟩

/-- An empty atom run applies the continuation. -/
theorem mtchAtoms_nil_apply {α : Type} {k : List Char → Caps → Option α}
    {s : List Char} {caps : Caps} {v : α} (h : k s caps = some v) :
    mtchAtoms [] s caps k = some v := h

/-- C9: on a document whose root element opening tag carries the attribute
with the given file name — formalised as a document of the shape
preamble, the root marker, other attributes, the file attribute, more
attributes, closing angle bracket, rest — the extractor captures exactly the
country-code-prefixed identifier with the date and extension suffix
discarded.  The preamble contains no root marker and the attributes before
the file attribute contain no file-attribute anchor, which is what makes the
tag the root element's opening tag and the attribute its identifying
attribute.  A document without the root marker yields NA. -/
theorem spec_c9 :
    (∀ pre a1 a2 rst : List Char,
      (∀ j, ¬ ("<us-patent-grant".data <+: pre.drop j)) →
      (∀ j, ¬ ("file=\"".data <+: (' ' :: a1).drop j)) →
      extract_grant_id
        (pre ++ ("<us-patent-grant".data ++ ((' ' :: a1) ++ ("file=\"".data ++
          ("US10361423-20190723.XML\"".data ++ (a2 ++ '>' :: rst))))))
        = "US10361423".data)
    ∧ (∀ doc : List Char, noOccur "<us-patent-grant".data doc →
        extract_grant_id doc = NAstr) := by
  constructor
  · intro pre a1 a2 rst hpre hm
    have hex : ∃ j, (">".data : List Char) <+: (a2 ++ '>' :: rst).drop j :=
      ⟨a2.length, by rw [List.drop_left]; exact ⟨rst, rfl⟩⟩
    generalize hgY : a2 ++ '>' :: rst = Y
    rw [hgY] at hex
    generalize hgM : (' ' :: a1) = M
    rw [hgM] at hm
    have hA16 : noSelfAlign "<us-patent-grant".data := by decide
    have hAf : noSelfAlign "file=\"".data := by decide
    have hcap : ("US10361423-20190723.XML\"".data ++ Y).take
        (("US10361423-20190723.XML\"".data ++ Y).length
          - ("-20190723.XML\"".data ++ Y).length) = "US10361423".data := by
      have h1 : ("US10361423-20190723.XML\"".data ++ Y).length
          - ("-20190723.XML\"".data ++ Y).length = 10 := by
        simp only [List.length_append]
        rw [show ("US10361423-20190723.XML\"".data : List Char).length = 24 from rfl,
          show ("-20190723.XML\"".data : List Char).length = 14 from rfl]
        omega
      rw [h1, List.take_append_of_le_length (by
        rw [show ("US10361423-20190723.XML\"".data : List Char).length = 24 from rfl]
        omega)]
      rfl
    have hM : mtchItems GRANT_ID_PATTERN
        ("<us-patent-grant".data ++ (M ++ ("file=\"".data ++
          ("US10361423-20190723.XML\"".data ++ Y)))) []
        (kposFor ("<us-patent-grant".data ++ (M ++ ("file=\"".data ++
          ("US10361423-20190723.XML\"".data ++ Y)))))
        = some (("<us-patent-grant".data ++ (M ++ ("file=\"".data ++
            ("US10361423-20190723.XML\"".data ++ Y)))).take
            (("<us-patent-grant".data ++ (M ++ ("file=\"".data ++
              ("US10361423-20190723.XML\"".data ++ Y)))).length
              - ((Y.drop (Nat.find hex)).drop 1).length),
          (Y.drop (Nat.find hex)).drop 1,
          [(1, "US10361423".data)]) := by
      unfold GRANT_ID_PATTERN
      rw [mtchItems_seq, mtchAtoms_lit_pos (List.prefix_append _ _), List.drop_left]
      refine mtchAtoms_lazy_lit (by decide) M.length ?_ ?_ ?_
      · rw [List.drop_left]; exact List.prefix_append _ _
      · exact no_occur_in_prepend _ hAf hm
      · rw [List.drop_left, List.drop_left]
        apply mtchAtoms_nil_apply
        beta_reduce
        rw [mtchItems_grp]
        have ec1 : clsTop upperP (some 2)
            ("US10361423-20190723.XML\"".data ++ Y) = 2 := rfl
        rw [mtchAtoms_cls_forced ec1]
        have ed1 : ("US10361423-20190723.XML\"".data ++ Y).drop 2
            = "10361423-20190723.XML\"".data ++ Y := rfl
        rw [ed1]
        have ec2 : clsTop upperP (some 2)
            ("10361423-20190723.XML\"".data ++ Y) = 0 := rfl
        rw [mtchAtoms_cls_forced ec2]
        rw [List.drop_zero]
        have ec3 : clsTop Char.isDigit none
            ("10361423-20190723.XML\"".data ++ Y) = 8 := rfl
        refine mtchAtoms_cls_greedy_top ?_ ?_
        · rw [ec3]; omega
        · rw [ec3]
          have ed2 : ("10361423-20190723.XML\"".data ++ Y).drop 8
              = "-20190723.XML\"".data ++ Y := rfl
          rw [ed2]
          apply mtchAtoms_nil_apply
          beta_reduce
          rw [hcap, mtchItems_seq]
          refine mtchAtoms_lazy_lit (by decide) 9 ?_ ?_ ?_
          · exact ⟨Y, rfl⟩
          · intro j hj
            interval_cases j <;> exact of_decide_eq_false rfl
          · have ed3 : (("-20190723.XML\"".data ++ Y).drop 9).drop
                ((".XML\"".data : List Char).length) = Y := rfl
            rw [ed3]
            refine mtchAtoms_lazy_lit (by decide) (Nat.find hex)
              (Nat.find_spec hex) (fun j hj => Nat.find_min hex hj) ?_
            apply mtchAtoms_nil_apply
            rfl
    have hS : searchA GRANT_ID_PATTERN
        ("<us-patent-grant".data ++ (M ++ ("file=\"".data ++
          ("US10361423-20190723.XML\"".data ++ Y))))
        = some (("<us-patent-grant".data ++ (M ++ ("file=\"".data ++
            ("US10361423-20190723.XML\"".data ++ Y)))).take
            (("<us-patent-grant".data ++ (M ++ ("file=\"".data ++
              ("US10361423-20190723.XML\"".data ++ Y)))).length
              - ((Y.drop (Nat.find hex)).drop 1).length),
          (Y.drop (Nat.find hex)).drop 1,
          [(1, "US10361423".data)]) := searchA_cons_of_some hM
    have eskip : searchA GRANT_ID_PATTERN
        (pre ++ ("<us-patent-grant".data ++ (M ++ ("file=\"".data ++
          ("US10361423-20190723.XML\"".data ++ Y)))))
        = searchA GRANT_ID_PATTERN
          ("<us-patent-grant".data ++ (M ++ ("file=\"".data ++
            ("US10361423-20190723.XML\"".data ++ Y)))) :=
      searchA_skip pre _ (no_occur_in_prepend _ hA16 hpre)
    unfold extract_grant_id
    rw [eskip, hS]
    rfl
  · intro doc h
    have hs : searchA GRANT_ID_PATTERN doc = none :=
      searchA_none_of_noOccur h
    unfold extract_grant_id
    rw [hs]

theorem spec_c9_witness :
    extract_grant_id
      ("<!DOCTYPE x>".data ++ ("<us-patent-grant".data ++ ((' ' :: "lang=\"EN\"".data) ++
        ("file=\"".data ++ ("US10361423-20190723.XML\"".data ++
          (" status=\"A\"".data ++ '>' :: "<b/>".data))))))
      = "US10361423".data
    ∧ extract_grant_id "<a>b</a>".data = NAstr :=
  ⟨spec_c9.1 "<!DOCTYPE x>".data "lang=\"EN\"".data " status=\"A\"".data "<b/>".data
    (noOccur_of_ball (by decide) (by decide)) (noOccur_of_ball (by decide) (by decide)),
   spec_c9.2 "<a>b</a>".data (noOccur_of_ball (by decide) (by decide))⟩

/-- C10 counterexample: the entity passes do not commute.  On the input
containing the nested entity text, the source's table order decodes twice
(amp pass first turns it into a lt entity, which the later lt pass decodes),
while running the lt pass before the amp pass leaves a lt entity. -/
theorem spec_c10_counterexample :
    applyEntitiesList htmlEntities "x&amp;lt;y".data = "x<y".data
    ∧ applyEntitiesList
        (("&lt;".data, "<".data) :: ("&amp;".data, "&".data) :: htmlEntities.drop 2)
        "x&amp;lt;y".data = "x&lt;y".data
    ∧ ("x<y".data : List Char) ≠ "x&lt;y".data := by
  refine ⟨?_, ?_, ?_⟩ <;> decide

/-- C10 amended: the segmenter applies one full replace pass per entity in
the fixed table order, and the result is NOT independent of the pass order:
there is a permutation of the table (swapping the amp and lt passes) that
yields a different output on an input containing the nested entity text,
because the amp pass creates a new lt-entity occurrence. -/
theorem spec_c10 :
    applyEntities "x&amp;lt;y".data = "x<y".data
    ∧ ∃ tbl : List (List Char × List Char), tbl.Perm htmlEntities ∧
        applyEntitiesList tbl "x&amp;lt;y".data ≠ applyEntities "x&amp;lt;y".data := by
  constructor
  · decide
  · refine ⟨("&lt;".data, "<".data) :: ("&amp;".data, "&".data) :: htmlEntities.drop 2,
      ?_, by decide⟩
    exact List.Perm.swap _ _ _

/-- C7: the claim says that on duplicate grant_id values the nested (JSON)
encoding collapses later records over earlier ones (last-wins) and always
succeeds.  The code does not: `df.set_index(\x27grant_id\x27)` followed by
`df.to_dict(orient=\x27index\x27)` raises a ValueError when the index is not
unique, so two records sharing a grant id abort the nested encoding instead
of collapsing. -/
theorem spec_c7_counterexample :
    toDictIndex [sampleRec "US1".data "A".data "B".data,
      sampleRec "US1".data "C".data "D".data]
      = .error "DataFrame index must be unique for orient=\x27index\x27.".data := by
  rfl

/-- C7 (amended): the nested encoding is a mapping whose outer keys are the
grant_id values and whose inner mapping holds the remaining eight fields,
but only when the grant_id values are pairwise distinct; with a duplicate
grant_id the encoding raises the pandas unique-index ValueError instead of
collapsing last-wins. -/
theorem spec_c7 (rs : List Record) :
    ((rs.map Record.grant_id).Nodup →
      toDictIndex rs = .ok (rs.map fun r => (r.grant_id, innerOf r))) ∧
    (¬ (rs.map Record.grant_id).Nodup →
      toDictIndex rs
        = .error "DataFrame index must be unique for orient=\x27index\x27.".data) := by
  constructor <;> intro h <;> simp [toDictIndex, h]

theorem spec_c7_witness :
    toDictIndex [sampleRec "US1".data "A".data "B".data]
      = .ok [("US1".data,
          innerOf (sampleRec "US1".data "A".data "B".data))] :=
  (spec_c7 [sampleRec "US1".data "A".data "B".data]).1 (by decide)

/-- C8: the round-trip claim fails literally.  A record whose patent_title
is the digit string "7" reloads from the csv with an integer cell (pandas
column dtype inference), so the flat round trip does not reproduce the
string field value; and a record whose abstract contains a backslash
reloads differently from the flat and the nested encodings (the JSON writer
leaves the backslash unescaped, so `json.load` decodes the two characters
backslash-b as a backspace), so the two reloaded tables disagree. -/
theorem spec_c8_counterexample :
    (csvReload [sampleRec "US2".data "7".data "x".data]).isSome = true ∧
    csvReload [sampleRec "US2".data "7".data "x".data]
      ≠ some (dfOf [sampleRec "US2".data "7".data "x".data]) ∧
    (jsonReload
      [sampleRec "US3".data "T".data ('a' :: '\\' :: 'b' :: [])]).toOption.isSome
      = true ∧
    (csvReload
        [sampleRec "US3".data "T".data ('a' :: '\\' :: 'b' :: [])]).getD ⟨[], []⟩
      ≠ (jsonReload
          [sampleRec "US3".data "T".data
            ('a' :: '\\' :: 'b' :: [])]).toOption.getD ⟨[], []⟩ := by
  exact ⟨by decide, by decide, by decide, by decide⟩

/-- C8 (amended): for a nonempty record list with pairwise-distinct grant
ids in which every cell is safe — each string cell empty or, after
stripping the whitespace the pandas parsers skip, starting with a character
that can begin no numeric token (no digit, sign, decimal point, or
infinity spelling, so the column defeats the int64 and float64 parsers and
keeps object dtype), none of the boolean words, free of backslashes and
control characters, grant ids additionally free of double quotes, and the
integer count fields below 2^63 — the flat (csv) encoding reloads to
exactly the logical table of the records, and the nested (json) encoding
reloads to the same table, so the two encodings agree in column set and
cell values. -/
theorem spec_c8 (r0 : Record) (rest : List Record)
    (hnd : ((r0 :: rest).map Record.grant_id).Nodup)
    (hs : ∀ r ∈ r0 :: rest, safeRec r = true) :
    csvReload (r0 :: rest) = some (dfOf (r0 :: rest)) ∧
    jsonReload (r0 :: rest) = .ok (dfOf (r0 :: rest)) :=
  ⟨csvReload_eq r0 rest hs, jsonReload_eq r0 rest hnd hs⟩

theorem spec_c8_witness :
    csvReload [sampleRec "US1".data "Title".data "Abs".data]
      = some (dfOf [sampleRec "US1".data "Title".data "Abs".data]) ∧
    jsonReload [sampleRec "US1".data "Title".data "Abs".data]
      = .ok (dfOf [sampleRec "US1".data "Title".data "Abs".data]) :=
  spec_c8 (sampleRec "US1".data "Title".data "Abs".data) [] (by decide)
    (by decide)

end PatParse
